import Mathlib

/-!
Verification of behavioral claims about the sublime-security technical-solutions
repository, via a shallow embedding of the relevant Python functions in Lean 4.

Each definition is translated from a specific source function (named in its doc
comment).  Strings are modelled as Lean `String`/`List Char`; Python dicts as
association lists; fallible code returns `Except`/`Option`.
-/

namespace Spec2Proof

/-- `pat` occurs as a contiguous run inside `s`: `pat` is a prefix of some
suffix of `s`. -/
def listHasInfix (pat : List Char) : List Char → Bool
  | [] => pat.isEmpty
  | c :: tl => pat.isPrefixOf (c :: tl) || listHasInfix pat tl

/-- Boolean substring test: Python `pat in s` (contiguous substring). -/
def strHasSub (s pat : String) : Bool :=
  listHasInfix pat.toList s.toList

/-! ## C1 — sublime-migration-cli `commands/migrate/rules.py`,
`match_rules_and_categorize` (lines 177-220).

A rule is seen through `rule.get("name")` / `rule.get("source_md5")`,
both of which may be absent (`None`); we model those two lookups. -/

/-- The `(name, source_md5)` view of a rule dict used by
`match_rules_and_categorize` (`rule.get("name")`, `rule.get("source_md5")`). -/
structure RuleDict where
  name : Option String
  source_md5 : Option String
  deriving DecidableEq, Repr

/-- Result dict of `match_rules_and_categorize`: the three category lists
(`new_rules`, `update_rules`, `skipped_rules`); a skipped entry is the
rule together with its reason string. -/
structure RuleCategorization where
  new_rules : List RuleDict
  update_rules : List RuleDict
  skipped_rules : List (RuleDict × String)
  deriving DecidableEq, Repr

/-- The literal reason recorded for a skipped rule in `match_rules_and_categorize`. -/
def skipReason : String :=
  "Rule exists with same name but different content (source_md5 mismatch)"

/-- `(rule_name, rule_md5) in dest_rule_by_name_and_md5`: some destination rule
has the same name and the same source_md5. -/
def hasNameMd5Match (dest : List RuleDict) (r : RuleDict) : Bool :=
  dest.any (fun d => d.name == r.name && d.source_md5 == r.source_md5)

/-- `rule_name in dest_rule_by_name`: some destination rule has the same name. -/
def hasNameMatch (dest : List RuleDict) (r : RuleDict) : Bool :=
  dest.any (fun d => d.name == r.name)

/-- `match_rules_and_categorize(source_rules, dest_rules)`: each source rule is
appended to exactly one of the three lists — `update_rules` on an exact
`(name, source_md5)` match, `skipped_rules` (with `skipReason`) on a bare name
match, `new_rules` otherwise.  The source's append-at-end loop is rendered as
structural recursion preserving order. -/
def matchRulesAndCategorize (source_rules dest_rules : List RuleDict) : RuleCategorization :=
  match source_rules with
  | [] => ⟨[], [], []⟩
  | r :: rs =>
    let acc := matchRulesAndCategorize rs dest_rules
    if hasNameMd5Match dest_rules r then
      { acc with update_rules := r :: acc.update_rules }
    else if hasNameMatch dest_rules r then
      { acc with skipped_rules := (r, skipReason) :: acc.skipped_rules }
    else
      { acc with new_rules := r :: acc.new_rules }

lemma hasNameMd5Match_iff (dest : List RuleDict) (r : RuleDict) :
    hasNameMd5Match dest r = true ↔
      ∃ d ∈ dest, d.name = r.name ∧ d.source_md5 = r.source_md5 := by
  simp [hasNameMd5Match, List.any_eq_true, and_assoc]

lemma hasNameMatch_iff (dest : List RuleDict) (r : RuleDict) :
    hasNameMatch dest r = true ↔ ∃ d ∈ dest, d.name = r.name := by
  simp [hasNameMatch, List.any_eq_true]

lemma mem_update_rules_iff (src dest : List RuleDict) (r : RuleDict) :
    r ∈ (matchRulesAndCategorize src dest).update_rules ↔
      r ∈ src ∧ hasNameMd5Match dest r = true := by
  induction src with
  | nil => simp [matchRulesAndCategorize]
  | cons a rs ih =>
    cases h1 : hasNameMd5Match dest a
    · cases h2 : hasNameMatch dest a <;>
        · simp only [matchRulesAndCategorize, h1, h2, Bool.false_eq_true, if_false, if_true,
            List.mem_cons, ih]
          constructor
          · rintro ⟨hm, hp⟩; exact ⟨Or.inr hm, hp⟩
          · rintro ⟨rfl | hm, hp⟩
            · simp [h1] at hp
            · exact ⟨hm, hp⟩
    · simp only [matchRulesAndCategorize, h1, if_true, List.mem_cons, ih]
      constructor
      · rintro (rfl | ⟨hm, hp⟩)
        · exact ⟨Or.inl rfl, h1⟩
        · exact ⟨Or.inr hm, hp⟩
      · rintro ⟨rfl | hm, hp⟩
        · exact Or.inl rfl
        · exact Or.inr ⟨hm, hp⟩

lemma mem_skipped_rules_iff (src dest : List RuleDict) (r : RuleDict) (s : String) :
    (r, s) ∈ (matchRulesAndCategorize src dest).skipped_rules ↔
      r ∈ src ∧ s = skipReason ∧
        hasNameMd5Match dest r = false ∧ hasNameMatch dest r = true := by
  induction src with
  | nil => simp [matchRulesAndCategorize]
  | cons a rs ih =>
    cases h1 : hasNameMd5Match dest a
    · cases h2 : hasNameMatch dest a
      · simp only [matchRulesAndCategorize, h1, h2, Bool.false_eq_true, if_false,
          List.mem_cons, ih]
        constructor
        · rintro ⟨hm, hs, hp, hq⟩; exact ⟨Or.inr hm, hs, hp, hq⟩
        · rintro ⟨rfl | hm, hs, hp, hq⟩
          · simp [h2] at hq
          · exact ⟨hm, hs, hp, hq⟩
      · simp only [matchRulesAndCategorize, h1, h2, Bool.false_eq_true, if_false, if_true,
          List.mem_cons, ih]
        constructor
        · rintro (heq | ⟨hm, hs, hp, hq⟩)
          · rw [Prod.mk.injEq] at heq
            obtain ⟨rfl, rfl⟩ := heq
            exact ⟨Or.inl rfl, rfl, h1, h2⟩
          · exact ⟨Or.inr hm, hs, hp, hq⟩
        · rintro ⟨rfl | hm, hs, hp, hq⟩
          · exact Or.inl (by rw [hs])
          · exact Or.inr ⟨hm, hs, hp, hq⟩
    · simp only [matchRulesAndCategorize, h1, if_true, ih]
      constructor
      · rintro ⟨hm, hs, hp, hq⟩; exact ⟨List.mem_cons_of_mem a hm, hs, hp, hq⟩
      · rintro ⟨hmem, hs, hp, hq⟩
        rcases List.mem_cons.mp hmem with rfl | hm
        · simp [h1] at hp
        · exact ⟨hm, hs, hp, hq⟩

lemma mem_new_rules_iff (src dest : List RuleDict) (r : RuleDict) :
    r ∈ (matchRulesAndCategorize src dest).new_rules ↔
      r ∈ src ∧ hasNameMd5Match dest r = false ∧ hasNameMatch dest r = false := by
  induction src with
  | nil => simp [matchRulesAndCategorize]
  | cons a rs ih =>
    cases h1 : hasNameMd5Match dest a
    · cases h2 : hasNameMatch dest a
      · simp only [matchRulesAndCategorize, h1, h2, Bool.false_eq_true, if_false,
          List.mem_cons, ih]
        constructor
        · rintro (rfl | ⟨hm, hp, hq⟩)
          · exact ⟨Or.inl rfl, h1, h2⟩
          · exact ⟨Or.inr hm, hp, hq⟩
        · rintro ⟨rfl | hm, hp, hq⟩
          · exact Or.inl rfl
          · exact Or.inr ⟨hm, hp, hq⟩
      · simp only [matchRulesAndCategorize, h1, h2, Bool.false_eq_true, if_false, if_true,
          List.mem_cons, ih]
        constructor
        · rintro ⟨hm, hp, hq⟩; exact ⟨Or.inr hm, hp, hq⟩
        · rintro ⟨rfl | hm, hp, hq⟩
          · simp [h2] at hq
          · exact ⟨hm, hp, hq⟩
    · simp only [matchRulesAndCategorize, h1, if_true, List.mem_cons, ih]
      constructor
      · rintro ⟨hm, hp, hq⟩; exact ⟨Or.inr hm, hp, hq⟩
      · rintro ⟨rfl | hm, hp, hq⟩
        · simp [h1] at hp
        · exact ⟨hm, hp, hq⟩

/-- C1: `match_rules_and_categorize` places a source rule in `update_rules`
exactly when some destination rule matches its `(name, source_md5)` pair;
in `skipped_rules` — with a reason containing "source_md5 mismatch" — exactly
when some destination rule shares its name but none matches both name and
source_md5; and in `new_rules` exactly when no destination rule shares its
name.  Consequently a source rule whose name matches a destination rule but
with no exact `(name, source_md5)` match is neither created nor updated. -/
theorem c1_match_rules_and_categorize (src dest : List RuleDict) (r : RuleDict) :
    (r ∈ (matchRulesAndCategorize src dest).update_rules ↔
       r ∈ src ∧ ∃ d ∈ dest, d.name = r.name ∧ d.source_md5 = r.source_md5) ∧
    ((∃ s, (r, s) ∈ (matchRulesAndCategorize src dest).skipped_rules ∧
        strHasSub s "source_md5 mismatch" = true) ↔
       r ∈ src ∧ (∃ d ∈ dest, d.name = r.name) ∧
         ¬ ∃ d ∈ dest, d.name = r.name ∧ d.source_md5 = r.source_md5) ∧
    (r ∈ (matchRulesAndCategorize src dest).new_rules ↔
       r ∈ src ∧ ¬ ∃ d ∈ dest, d.name = r.name) ∧
    (r ∈ src → (∃ d ∈ dest, d.name = r.name) →
      (¬ ∃ d ∈ dest, d.name = r.name ∧ d.source_md5 = r.source_md5) →
      r ∉ (matchRulesAndCategorize src dest).new_rules ∧
      r ∉ (matchRulesAndCategorize src dest).update_rules ∧
      (r, skipReason) ∈ (matchRulesAndCategorize src dest).skipped_rules) := by
  have hsub : strHasSub skipReason "source_md5 mismatch" = true := by decide
  refine ⟨?_, ?_, ?_, ?_⟩
  · rw [mem_update_rules_iff, hasNameMd5Match_iff]
  · constructor
    · rintro ⟨s, hmem, _⟩
      rw [mem_skipped_rules_iff] at hmem
      obtain ⟨hsrc, _, hm1, hm2⟩ := hmem
      refine ⟨hsrc, (hasNameMatch_iff dest r).mp hm2, ?_⟩
      rw [← hasNameMd5Match_iff, hm1]; simp
    · rintro ⟨hsrc, hname, hnomd5⟩
      refine ⟨skipReason, ?_, hsub⟩
      rw [mem_skipped_rules_iff]
      refine ⟨hsrc, rfl, ?_, (hasNameMatch_iff dest r).mpr hname⟩
      rw [← Bool.not_eq_true, hasNameMd5Match_iff]; exact hnomd5
  · rw [mem_new_rules_iff]
    constructor
    · rintro ⟨hsrc, _, hm2⟩
      refine ⟨hsrc, ?_⟩
      rw [← hasNameMatch_iff, hm2]; simp
    · rintro ⟨hsrc, hname⟩
      have hm2 : hasNameMatch dest r = false := by
        rw [← Bool.not_eq_true, hasNameMatch_iff]; exact hname
      have hm1 : hasNameMd5Match dest r = false := by
        rw [← Bool.not_eq_true, hasNameMd5Match_iff]
        rintro ⟨d, hd, h1, h2⟩; exact hname ⟨d, hd, h1⟩
      exact ⟨hsrc, hm1, hm2⟩
  · intro hsrc hname hnomd5
    have hm1 : hasNameMd5Match dest r = false := by
      rw [← Bool.not_eq_true, hasNameMd5Match_iff]; exact hnomd5
    have hm2 : hasNameMatch dest r = true := (hasNameMatch_iff dest r).mpr hname
    refine ⟨?_, ?_, ?_⟩
    · rw [mem_new_rules_iff]; rintro ⟨_, _, h⟩; simp [hm2] at h
    · rw [mem_update_rules_iff]; rintro ⟨_, h⟩; simp [hm1] at h
    · rw [mem_skipped_rules_iff]; exact ⟨hsrc, rfl, hm1, hm2⟩

/-! ## JSON-like values

Python JSON dicts/lists/scalars, used by several embedded functions.  An
object is an association list with the dict's insertion order; Python dict
keys are unique, but none of the lemmas below need that assumption unless
stated. -/

inductive Jx where
  | null
  | bool (b : Bool)
  | num (q : ℚ)
  | str (s : String)
  | arr (items : List Jx)
  | obj (entries : List (String × Jx))

/-- First-match association lookup: `d[key]` / `key in d` for a Python dict. -/
def lookupKey : List (String × Jx) → String → Option Jx
  | [], _ => none
  | (k, v) :: tl, key => if k == key then some v else lookupKey tl key

/-- `d[key] = v` on a Python dict: replace in place if the key exists
(preserving position), else append. -/
def setKey : List (String × Jx) → String → Jx → List (String × Jx)
  | [], key, v => [(key, v)]
  | (k, w) :: tl, key, v =>
    if k == key then (key, v) :: tl else (k, w) :: setKey tl key v

/-! ## C3 / C10 — sublime-migration-cli `utils/api.py`:
`PaginatedFetcher.fetch_all` (lines 24-105), `extract_items_auto`
(lines 110-137) and `extract_total_auto` (lines 140-184).

`fetch_all` is modelled generically over the response type `ρ`: a pure
`server` function maps each requested offset to a response, and the two
extractor functions pull the item list and the total out of it.  The total is
kept as a raw `Jx` value because `extract_total_auto` returns whatever value
sits under the `total`/`count` key; the loop's `len(all_items) >= total`
comparison is therefore partial (a non-numeric total is Python `TypeError`).
The loop is given fuel because the Python `while True` need not terminate;
all theorems below exhibit runs that finish within their fuel. -/

/-- The item keys probed by `extract_items_auto` / `extract_total_auto`. -/
def itemKeys : List String :=
  ["rules", "feeds", "actions", "lists", "exclusions", "items", "data"]

/-- The key-probing loop shared by both extractors: the first key in `keys`
whose value in the dict is a list. -/
def firstListValue (kvs : List (String × Jx)) : List String → Option (List Jx)
  | [] => none
  | key :: rest =>
    match lookupKey kvs key with
    | some (.arr xs) => some xs
    | _ => firstListValue kvs rest

/-- `extract_items_auto(response)`. -/
def extractItemsAuto : Jx → List Jx
  | .arr xs => xs
  | .obj kvs =>
    match firstListValue kvs itemKeys with
    | some xs => xs
    | none => [.obj kvs]
  | _ => []

/-- `extract_total_auto(response)`: returns the raw value found (the Python
function returns `response["total"]` unchecked), or a number for the
list-length fallbacks. -/
def extractTotalAuto : Jx → Jx
  | .arr xs => .num xs.length
  | .obj kvs =>
    match lookupKey kvs "total" with
    | some v => v
    | none =>
      match lookupKey kvs "count" with
      | some v => v
      | none =>
        match (match lookupKey kvs "meta" with
               | some (.obj mkvs) => lookupKey mkvs "total"
               | _ => none) with
        | some v => v
        | none =>
          match (match lookupKey kvs "pagination" with
                 | some (.obj pkvs) => lookupKey pkvs "total"
                 | _ => none) with
          | some v => v
          | none =>
            match firstListValue kvs itemKeys with
            | some xs => .num xs.length
            | none => .num 0
  | _ => .num 0

/-- Python `len(all_items) >= total`: defined only when `total` is numeric. -/
def pyLenGe (n : Nat) (total : Jx) : Except String Bool :=
  match total with
  | .num q => .ok (decide (q ≤ (n : ℚ)))
  | _ => .error "TypeError: comparison between int and non-number"

/-- The `while True` body of `PaginatedFetcher.fetch_all`, with the offsets of
the page requests issued recorded in `reqs`.  `total?` is the `total = None`
first-page latch. -/
def fetchAllLoop {ρ β : Type} (server : Nat → ρ) (re : ρ → List β) (te : ρ → Jx)
    (pageSize : Nat) (fuel : Nat) (offset : Nat) (total? : Option Jx)
    (acc : List β) (reqs : List Nat) : Except String (List β × List Nat) :=
  match fuel with
  | 0 => .error "fuel exhausted"
  | fuel + 1 =>
    let resp := server offset
    let pageItems := re resp
    let total := total?.getD (te resp)
    let acc2 := acc ++ pageItems
    let reqs2 := reqs ++ [offset]
    match pyLenGe acc2.length total with
    | .error e => .error e
    | .ok stop =>
      if stop || pageItems.isEmpty then .ok (acc2, reqs2)
      else fetchAllLoop server re te pageSize fuel (offset + pageSize) (some total) acc2 reqs2

/-- `PaginatedFetcher.fetch_all`: returns the accumulated items and the list
of offsets requested. -/
def fetchAll {ρ β : Type} (server : Nat → ρ) (re : ρ → List β) (te : ρ → Jx)
    (pageSize : Nat) (fuel : Nat) : Except String (List β × List Nat) :=
  fetchAllLoop server re te pageSize fuel 0 none [] []

/-- A paginated endpoint response: an item page plus the reported total. -/
structure PageResp (α : Type) where
  items : List α
  total : Nat

/-- An endpoint abstraction honoring `limit`/`offset` pagination over a fixed
item list `L`: the page at `offset` is `L[offset : offset+limit]` and the
reported total is `len(L)`. -/
def serverOfList {α : Type} (L : List α) (limit : Nat) (offset : Nat) : PageResp α :=
  ⟨(L.drop offset).take limit, L.length⟩

lemma fetchAllLoop_continue {ρ β : Type} (server : Nat → ρ) (re : ρ → List β)
    (te : ρ → Jx) (pageSize fuel offset : Nat) (total? : Option Jx)
    (acc : List β) (reqs : List Nat)
    (h1 : pyLenGe (acc ++ re (server offset)).length (total?.getD (te (server offset))) =
      .ok false)
    (h2 : (re (server offset)).isEmpty = false) :
    fetchAllLoop server re te pageSize (fuel + 1) offset total? acc reqs =
      fetchAllLoop server re te pageSize fuel (offset + pageSize)
        (some (total?.getD (te (server offset)))) (acc ++ re (server offset))
        (reqs ++ [offset]) := by
  simp only [fetchAllLoop, h1, h2, Bool.or_self, Bool.false_eq_true, if_false]

lemma fetchAllLoop_stop {ρ β : Type} (server : Nat → ρ) (re : ρ → List β)
    (te : ρ → Jx) (pageSize fuel offset : Nat) (total? : Option Jx)
    (acc : List β) (reqs : List Nat) (stop : Bool)
    (h1 : pyLenGe (acc ++ re (server offset)).length (total?.getD (te (server offset))) =
      .ok stop)
    (h2 : (stop || (re (server offset)).isEmpty) = true) :
    fetchAllLoop server re te pageSize (fuel + 1) offset total? acc reqs =
      .ok (acc ++ re (server offset), reqs ++ [offset]) := by
  simp only [fetchAllLoop, h1, h2, if_true]

lemma isEmpty_false_of_length {γ : Type} {l : List γ} {n : Nat} (h : l.length = n)
    (hn : n ≠ 0) : l.isEmpty = false := by
  cases l with
  | nil => simp at h; omega
  | cons a tl => rfl

/-- C3: over an endpoint abstraction serving a 137-item collection in pages of
at most 100, `fetch_all` issues exactly the two page requests at offsets 0 and
100 and returns exactly the 137 items; for a reported total of 0 (empty
collection), or for any endpoint whose first page is empty, it issues exactly
one request (offset 0) and returns the empty list. -/
theorem c3_fetch_all_pagination {α : Type} (L : List α) (hlen : L.length = 137)
    (fuel : Nat) (hfuel : 2 ≤ fuel) :
    fetchAll (serverOfList L 100) PageResp.items (fun p => .num p.total) 100 fuel =
      .ok (L, [0, 100]) ∧
    (∀ (M : List α), M.length = 0 → ∀ g, 1 ≤ g →
      fetchAll (serverOfList M 100) PageResp.items (fun p => .num p.total) 100 g =
        .ok ([], [0])) ∧
    (∀ (ρ : Type) (server : Nat → ρ) (re : ρ → List α) (te : ρ → Jx) (t : ℚ),
      re (server 0) = [] → te (server 0) = .num t → ∀ g, 1 ≤ g →
      fetchAll server re te 100 g = .ok ([], [0])) := by
  refine ⟨?_, ?_, ?_⟩
  · obtain ⟨f, rfl⟩ : ∃ f, fuel = f + 2 := ⟨fuel - 2, by omega⟩
    have htake : (L.take 100).length = 100 := by simp [hlen]
    have e0 : serverOfList L 100 0 = ⟨L.take 100, 137⟩ := by
      simp [serverOfList, hlen]
    have e1 : serverOfList L 100 (0 + 100) = ⟨L.drop 100, 137⟩ := by
      simp only [serverOfList, Nat.zero_add, hlen, PageResp.mk.injEq, and_true]
      exact List.take_of_length_le (by simp [hlen])
    have h1a : pyLenGe (([] : List α) ++ (serverOfList L 100 0).items).length
        ((none : Option Jx).getD (Jx.num (serverOfList L 100 0).total)) = .ok false := by
      rw [e0]
      simp only [List.nil_append, htake, pyLenGe, Option.getD_none]
      norm_num
    have h2a : ((serverOfList L 100 0).items).isEmpty = false := by
      rw [e0]; exact isEmpty_false_of_length htake (by omega)
    rw [show f + 2 = (f + 1) + 1 from rfl, fetchAll,
      fetchAllLoop_continue _ _ _ _ _ _ _ _ _ h1a h2a]
    have h1b : pyLenGe ((([] : List α) ++ (serverOfList L 100 0).items) ++
          (serverOfList L 100 (0 + 100)).items).length
        ((some ((none : Option Jx).getD
            (Jx.num (serverOfList L 100 0).total))).getD
          (Jx.num (serverOfList L 100 (0 + 100)).total)) = .ok true := by
      rw [e0, e1]
      have hlen2 : (([] : List α) ++ L.take 100 ++ L.drop 100).length = 137 := by
        simp [List.take_append_drop, hlen]
      simp only [hlen2, Option.getD_some, Option.getD_none, pyLenGe]
      norm_num
    have h2b : ((true : Bool) || ((serverOfList L 100 (0 + 100)).items).isEmpty) = true := by
      simp
    rw [fetchAllLoop_stop _ _ _ _ _ _ _ _ _ true h1b h2b, e0, e1]
    simp [List.take_append_drop]
  · intro M hM g hg
    obtain ⟨f, rfl⟩ : ∃ f, g = f + 1 := ⟨g - 1, by omega⟩
    have hMnil : M = [] := List.eq_nil_of_length_eq_zero hM
    subst hMnil
    have h1 : pyLenGe (([] : List α) ++
          PageResp.items (serverOfList ([] : List α) 100 0)).length
        ((none : Option Jx).getD
          (Jx.num (serverOfList ([] : List α) 100 0).total)) = .ok true := by
      simp [serverOfList, pyLenGe]
    have h2 : ((true : Bool) ||
        (PageResp.items (serverOfList ([] : List α) 100 0)).isEmpty) = true := by
      simp
    rw [fetchAll, fetchAllLoop_stop _ _ _ _ _ _ _ _ _ true h1 h2]
    simp [serverOfList]
  · intro ρ server re te t hre hte g hg
    obtain ⟨f, rfl⟩ : ∃ f, g = f + 1 := ⟨g - 1, by omega⟩
    have h1 : pyLenGe (([] : List α) ++ re (server 0)).length
        ((none : Option Jx).getD (te (server 0))) =
          .ok (decide (t ≤ (0 : ℚ))) := by
      rw [hre, hte]
      simp [pyLenGe]
    have h2 : ((decide (t ≤ (0 : ℚ))) || (re (server 0)).isEmpty) = true := by
      rw [hre]
      simp
    rw [fetchAll, fetchAllLoop_stop _ _ _ _ _ _ _ _ _ _ h1 h2]
    rw [hre]
    simp

/-- C3 witness: the 137-item collection `List.range 137` with fuel 2. -/
theorem c3_fetch_all_pagination_witness :
    fetchAll (serverOfList (List.range 137) 100) PageResp.items
        (fun p => .num p.total) 100 2 = .ok (List.range 137, [0, 100]) :=
  (c3_fetch_all_pagination (List.range 137) (by simp) 2 (by omega)).1

/-- C10: a dict response containing none of the keys `rules`, `feeds`,
`actions`, `lists`, `exclusions`, `items`, `data` mapped to a list is returned
by `extract_items_auto` as a one-element list holding the whole dict, and a
`fetch_all` run over an endpoint that serves this response (whose
auto-extracted total is some number at most 1) returns that single item after
one request rather than treating it as an empty page. -/
theorem c10_extract_items_auto_singleton (kvs : List (String × Jx))
    (h : (itemKeys.all (fun key =>
      match lookupKey kvs key with
      | some (.arr _) => false
      | _ => true)) = true)
    (t : ℚ) (ht : extractTotalAuto (.obj kvs) = .num t) (ht1 : t ≤ 1)
    (fuel : Nat) (hfuel : 1 ≤ fuel) :
    extractItemsAuto (.obj kvs) = [.obj kvs] ∧
    fetchAll (fun _ => Jx.obj kvs) extractItemsAuto extractTotalAuto 100 fuel =
      .ok ([.obj kvs], [0]) := by
  have hflv : firstListValue kvs itemKeys = none := by
    have haux : ∀ keys : List String,
        (keys.all (fun key =>
          match lookupKey kvs key with
          | some (.arr _) => false
          | _ => true)) = true →
        firstListValue kvs keys = none := by
      intro keys
      induction keys with
      | nil => intro _; rfl
      | cons k rest ih =>
        intro hk
        rw [List.all_cons, Bool.and_eq_true] at hk
        obtain ⟨hk1, hk2⟩ := hk
        simp only [firstListValue]
        cases hlk : lookupKey kvs k with
        | none => exact ih hk2
        | some v =>
          cases v with
          | arr xs => rw [hlk] at hk1; simp at hk1
          | null => exact ih hk2
          | bool b => exact ih hk2
          | num q => exact ih hk2
          | str s => exact ih hk2
          | obj o => exact ih hk2
    exact haux itemKeys h
  have hitems : extractItemsAuto (.obj kvs) = [.obj kvs] := by
    simp [extractItemsAuto, hflv]
  refine ⟨hitems, ?_⟩
  obtain ⟨f, rfl⟩ : ∃ f, fuel = f + 1 := ⟨fuel - 1, by omega⟩
  have h1 : pyLenGe (([] : List Jx) ++ extractItemsAuto (Jx.obj kvs)).length
      ((none : Option Jx).getD (extractTotalAuto (Jx.obj kvs))) = .ok true := by
    rw [hitems, ht]
    simp only [Option.getD_none, List.nil_append, List.length_cons, List.length_nil, pyLenGe]
    have h1' : t ≤ ((0 : Nat) + 1 : ℚ) := by push_cast; linarith
    simp only [Except.ok.injEq, decide_eq_true_eq]
    exact_mod_cast ht1
  have h2 : ((true : Bool) || (extractItemsAuto (Jx.obj kvs)).isEmpty) = true := by simp
  rw [fetchAll, fetchAllLoop_stop _ _ _ _ _ _ _ _ _ true h1 h2, hitems]
  simp

/-- C10 witness: the dict with the single entry `foo: "bar"` (auto total 0). -/
theorem c10_extract_items_auto_singleton_witness :
    extractItemsAuto (.obj [("foo", .str "bar")]) = [.obj [("foo", .str "bar")]] ∧
    fetchAll (fun _ => Jx.obj [("foo", .str "bar")]) extractItemsAuto
        extractTotalAuto 100 1 = .ok ([.obj [("foo", .str "bar")]], [0]) :=
  c10_extract_items_auto_singleton [("foo", .str "bar")] (by rfl) 0 (by rfl)
    (by norm_num) 1 (by omega)

/-! ## C4 — sublime-migration-cli `api/client.py`, `ApiClient._make_request`
(lines 47-116).

We model the per-attempt HTTP outcome as a status code supplied by a pure
`server : Nat → Nat` (attempt index ↦ status); network-level exceptions and
JSON decode errors are outside the claim.  `requests`' `raise_for_status`
raises `HTTPError` exactly for statuses in `[400, 600)`.  The result carries
the number of attempts actually made; an error carries which raise path fired
and the attempts made. -/

/-- The default `retry_on_codes` of `_make_request`. -/
def retryOnCodes : List Nat := [429, 500, 502, 503, 504]

/-- The `for attempt in range(max_retries)` loop of `_make_request`:
`remaining` is the number of loop iterations left (initially `max_retries`),
`attempt` the current Python loop index.  Mirrors, in order: the
retryable-status `continue`, `raise_for_status`, the immediate raise for 4xx
outside `retry_on_codes`, the raise on the last attempt, the backoff retry,
and the fallthrough `ApiError("Maximum retry attempts exceeded")`. -/
def makeRequestAux (server : Nat → Nat) (maxRetries : Nat) :
    Nat → Nat → Except (String × Nat) (Nat × Nat)
  | 0, attempt => .error ("Maximum retry attempts exceeded", attempt)
  | remaining + 1, attempt =>
    let s := server attempt
    if s ∈ retryOnCodes ∧ attempt < maxRetries - 1 then
      makeRequestAux server maxRetries remaining (attempt + 1)
    else if 400 ≤ s ∧ s < 600 then
      if s / 100 = 4 ∧ s ∉ retryOnCodes then
        .error ("HTTPError raised without retry", attempt + 1)
      else if maxRetries - 1 ≤ attempt then
        .error ("HTTPError raised on final attempt", attempt + 1)
      else
        makeRequestAux server maxRetries remaining (attempt + 1)
    else
      .ok (s, attempt + 1)

/-- `_make_request` with the given `max_retries`, returning the successful
status together with the number of attempts made. -/
def makeRequest (server : Nat → Nat) (maxRetries : Nat) :
    Except (String × Nat) (Nat × Nat) :=
  makeRequestAux server maxRetries maxRetries 0

lemma makeRequestAux_ok_attempts_le (server : Nat → Nat) (maxRetries : Nat) :
    ∀ remaining attempt r, makeRequestAux server maxRetries remaining attempt = .ok r →
      r.2 ≤ attempt + remaining := by
  intro remaining
  induction remaining with
  | zero => intro attempt r h; simp [makeRequestAux] at h
  | succ n ih =>
    intro attempt r h
    rw [makeRequestAux] at h
    split at h
    · have := ih (attempt + 1) r h; omega
    · split at h
      · split at h
        · exact absurd h (by simp)
        · split at h
          · exact absurd h (by simp)
          · have := ih (attempt + 1) r h; omega
      · rw [Except.ok.injEq] at h
        subst h
        show attempt + 1 ≤ attempt + (n + 1)
        omega

/-- A server answering status `s` on the first attempt and 200 afterwards. -/
def firstThen (s : Nat) : Nat → Nat := fun n => if n = 0 then s else 200

lemma firstThen_zero (s : Nat) : firstThen s 0 = s := rfl

lemma firstThen_one (s : Nat) : firstThen s 1 = 200 := rfl

/-- C4 counterexample: a 501 response (not in `retry_on_codes`, and not a 4xx)
IS retried — the first attempt returns 501, yet the request succeeds on a
second attempt — refuting "the retried status codes are exactly
{429, 500, 502, 503, 504}". -/
theorem c4_retry_codes_counterexample :
    501 ∉ retryOnCodes ∧
    makeRequest (firstThen 501) 3 = .ok (200, 2) := by
  constructor
  · decide
  · rfl

/-- C4 (amended): with `max_retries = 3`, a request answering 503 on the first
two attempts and 200 on the third succeeds with exactly 3 attempts, and every
successful request makes at most `max_retries` attempts; a 4xx status outside
{429, 500, 502, 503, 504} is raised immediately on the first attempt with no
retry; but the set of retried statuses is NOT exactly that list: a first-attempt
error status `s ∈ [400, 600)` is retried (success on attempt 2 against a
200-yielding second attempt) iff `s` is in the list OR `s` is not a 4xx —
so e.g. 501 is retried through the HTTPError exception path. -/
theorem c4_make_request_retry (s : Nat) (h4 : 400 ≤ s) (h6 : s < 600) :
    makeRequest (fun n => if n < 2 then 503 else 200) 3 = .ok (200, 3) ∧
    (∀ (server : Nat → Nat) (mr : Nat) (r : Nat × Nat),
      makeRequest server mr = .ok r → r.2 ≤ mr) ∧
    (s / 100 = 4 → s ∉ retryOnCodes →
      makeRequest (firstThen s) 3 = .error ("HTTPError raised without retry", 1)) ∧
    (makeRequest (firstThen s) 3 = .ok (200, 2) ↔
      (s ∈ retryOnCodes ∨ s / 100 ≠ 4)) := by
  have hsecond : makeRequestAux (firstThen s) 3 2 1 = .ok (200, 2) := by
    rw [makeRequestAux, firstThen_one]
    norm_num [retryOnCodes]
  refine ⟨by rfl, ?_, ?_, ?_⟩
  · intro server mr r h
    have := makeRequestAux_ok_attempts_le server mr mr 0 r h
    omega
  · intro hdiv hmem
    have hcond : ¬ (firstThen s 0 ∈ retryOnCodes ∧ 0 < 3 - 1) := by
      rw [firstThen_zero]; rintro ⟨hm, _⟩; exact hmem hm
    rw [makeRequest, makeRequestAux, if_neg hcond, firstThen_zero, if_pos ⟨h4, h6⟩,
      if_pos ⟨hdiv, hmem⟩]
  · by_cases hmem : s ∈ retryOnCodes
    · have step : makeRequest (firstThen s) 3 = makeRequestAux (firstThen s) 3 2 1 := by
        rw [makeRequest, makeRequestAux, firstThen_zero, if_pos ⟨hmem, by omega⟩]
      rw [step, hsecond]
      constructor
      · intro _; exact Or.inl hmem
      · intro _; rfl
    · by_cases hdiv : s / 100 = 4
      · have herr : makeRequest (firstThen s) 3 =
            .error ("HTTPError raised without retry", 1) := by
          have hcond : ¬ (firstThen s 0 ∈ retryOnCodes ∧ 0 < 3 - 1) := by
            rw [firstThen_zero]; rintro ⟨hm, _⟩; exact hmem hm
          rw [makeRequest, makeRequestAux, if_neg hcond, firstThen_zero,
            if_pos ⟨h4, h6⟩, if_pos ⟨hdiv, hmem⟩]
        rw [herr]
        constructor
        · intro h; exact absurd h (by simp)
        · rintro (hm | hd)
          · exact absurd hm hmem
          · exact absurd hdiv hd
      · have step : makeRequest (firstThen s) 3 = makeRequestAux (firstThen s) 3 2 1 := by
          have hcond : ¬ (firstThen s 0 ∈ retryOnCodes ∧ 0 < 3 - 1) := by
            rw [firstThen_zero]; rintro ⟨hm, _⟩; exact hmem hm
          rw [makeRequest, makeRequestAux, if_neg hcond, firstThen_zero,
            if_pos ⟨h4, h6⟩, if_neg (by rintro ⟨hd, _⟩; exact hdiv hd), if_neg (by omega)]
        rw [step, hsecond]
        constructor
        · intro _; exact Or.inr hdiv
        · intro _; rfl

/-- C4 witness: the amended theorem applied at `s = 501` (a status retried
through the HTTPError path even though it is not in the retry list). -/
theorem c4_make_request_retry_witness :
    makeRequest (fun n => if n < 2 then 503 else 200) 3 = .ok (200, 3) ∧
    makeRequest (firstThen 501) 3 = .ok (200, 2) := by
  refine ⟨(c4_make_request_retry 501 (by omega) (by omega)).1, ?_⟩
  exact (c4_make_request_retry 501 (by omega) (by omega)).2.2.2.mpr (by decide)

/-! ## C9 — manageFeedRules `utils/validation.py`, `validate_output_prefix`
(lines 30-40). -/

/-- The `invalid_chars` list of `validate_output_prefix`. -/
def invalidFilenameChars : List Char :=
  ['<', '>', ':', '"', '/', '\\', '|', '?', '*']

/-- Python `s.replace(c, "_")` for a single-character pattern: replace every
occurrence of `c` with an underscore. -/
def replaceChar (s : List Char) (c : Char) : List Char :=
  s.map (fun x => if x = c then '_' else x)

/-- `validate_output_prefix(prefix)`: raises on the empty prefix, then
sequentially replaces each invalid filename character with an underscore
(`for char in invalid_chars: prefix = prefix.replace(char, "_")`). -/
def validateOutputPref (s : List Char) : Except String (List Char) :=
  if s.isEmpty then .error "Output prefix cannot be empty"
  else .ok (invalidFilenameChars.foldl replaceChar s)

lemma foldl_replaceChar (cs : List Char) (s : List Char) :
    cs.foldl replaceChar s =
      s.map (fun x => cs.foldl (fun y c => if y = c then '_' else y) x) := by
  induction cs generalizing s with
  | nil => simp
  | cons c cs ih =>
    simp only [List.foldl_cons, ih, replaceChar, List.map_map]
    rfl

lemma foldl_invalid_chars_apply (x : Char) :
    invalidFilenameChars.foldl (fun y c => if y = c then '_' else y) x =
      if x ∈ invalidFilenameChars then '_' else x := by
  by_cases h : x ∈ invalidFilenameChars
  · fin_cases h <;> rfl
  · rw [if_neg h]
    simp only [invalidFilenameChars, List.mem_cons, List.not_mem_nil, or_false] at h
    push_neg at h
    obtain ⟨h1, h2, h3, h4, h5, h6, h7, h8, h9⟩ := h
    simp [invalidFilenameChars, List.foldl, h1, h2, h3, h4, h5, h6, h7, h8, h9]

/-- C9 counterexample: the claim says the invalid characters are stripped
(removed), but `validate_output_prefix("a<b")` returns `"a_b"` — the `<` is
replaced by an underscore, not removed. -/
theorem c9_validate_output_pref_counterexample :
    validateOutputPref "a<b".toList = .ok "a_b".toList ∧
    "a_b".toList ≠ "ab".toList := by
  constructor
  · rfl
  · decide

/-- C9 (amended): for every non-empty prefix, `validate_output_prefix` returns
the prefix with every occurrence of the characters `< > : " / \ | ? *`
REPLACED BY AN UNDERSCORE, and all other characters unchanged. -/
theorem c9_validate_output_pref (s : List Char) (h : s ≠ []) :
    validateOutputPref s =
      .ok (s.map (fun x => if x ∈ invalidFilenameChars then '_' else x)) := by
  have hne : s.isEmpty = false := by
    cases s with
    | nil => exact absurd rfl h
    | cons a tl => rfl
  unfold validateOutputPref
  rw [hne]
  simp only [Bool.false_eq_true, if_false, foldl_replaceChar]
  exact congrArg Except.ok (List.map_congr_left (fun x _ => foldl_invalid_chars_apply x))

/-- C9 witness: the amended theorem applied at `"a<b"`. -/
theorem c9_validate_output_pref_witness :
    validateOutputPref "a<b".toList =
      .ok ("a<b".toList.map (fun x => if x ∈ invalidFilenameChars then '_' else x)) :=
  c9_validate_output_pref "a<b".toList (by decide)

/-! ## C2 / C7 — manageFeedRules `services/data_processor.py` (DataProcessor)
and `models/__init__.py` (Rule, Action, Message, CoverageResult).

The API call `get_messages_by_rule(rule.id, date_from)` is abstracted as a
pure `fetch : String → Except String (List MMessage)` (`.error` models the
exception caught by the per-rule `except` block).  Python `set` accumulators
are modelled as duplicate-free lists in first-insertion order; no claim below
depends on the iteration order of a set. -/

/-- manageFeedRules `Action`: id, name, type, is_remediative. -/
structure MAction where
  id : String
  name : String
  type : String
  is_remediative : Bool
  deriving DecidableEq, Repr

/-- manageFeedRules `Rule` (the fields used by the coverage analysis). -/
structure MRule where
  id : String
  name : String
  actions : List MAction
  deriving DecidableEq, Repr

/-- `Rule.remediative_action_types`: the types of the rule's remediative
actions. -/
def MRule.remediativeActionTypes (r : MRule) : List String :=
  (r.actions.filter (fun a => a.is_remediative)).map (fun a => a.type)

/-- manageFeedRules `Message` (a message group): the flagged rule ids. -/
structure MMessage where
  flagged_rule_ids : List String
  deriving DecidableEq, Repr

/-- `percent_covered`: a float, or the literal string "unknown" (the only
string the code ever assigns to this field). -/
inductive Percent where
  | num (q : ℚ)
  | unknown
  deriving DecidableEq, Repr

/-- manageFeedRules `CoverageResult` (models/__init__.py lines 125-150).
Note the field is `has_message_groups`; no `has_messages` field exists. -/
structure CoverageResult where
  rule_id : String
  rule_name : String
  rule_actions : List String
  total_message_groups : Nat
  covered_message_groups : Nat
  uncovered_message_groups : Nat
  percent_covered : Percent
  automation_actions : List String
  error : Option String
  has_message_groups : Bool
  deriving DecidableEq, Repr

/-- Python `set.add` on a list-modelled set: append if absent. -/
def addUnique (acts : List String) (x : String) : List String :=
  if acts.contains x then acts else acts ++ [x]

/-- Python `set.update(xs)`. -/
def addAll (acts : List String) (xs : List String) : List String :=
  xs.foldl addUnique acts

/-- `DataProcessor._get_automation_actions`: union of the remediative action
types over all automation rules. -/
def getAutomationActions (automation_rules : List MRule) : List String :=
  automation_rules.foldl (fun acc ar => addAll acc ar.remediativeActionTypes) []

/-- One message group is "covered" when some rule that flagged it is an
automation rule (`message_rule_ids ∩ automation_rule_ids` non-empty). -/
def coveredIds (automation_rules : List MRule) (m : MMessage) : List String :=
  m.flagged_rule_ids.filter (fun i => automation_rules.any (fun ar => ar.id == i))

/-- The message loop of `_calculate_rule_coverage`: accumulates the covered
count and the observed automation action types.  `automation_rules_dict`
lookup (`{ar.id: ar}`, last entry wins on duplicate ids) is
`automation_rules.reverse.find?`. -/
def coverageFold (automation_rules : List MRule) (messages : List MMessage) :
    Nat × List String :=
  messages.foldl
    (fun acc m =>
      let flaggedAutomationIds := coveredIds automation_rules m
      if flaggedAutomationIds.isEmpty then acc
      else
        (acc.1 + 1,
         flaggedAutomationIds.foldl
           (fun acts i =>
             match automation_rules.reverse.find? (fun ar => ar.id == i) with
             | some ar => addAll acts ar.remediativeActionTypes
             | none => acts)
           acc.2))
    (0, [])

/-- `DataProcessor._calculate_rule_coverage` (called only with a non-empty
message list). -/
def calculateRuleCoverage (rule : MRule) (messages : List MMessage)
    (automation_rules : List MRule) : CoverageResult :=
  let total := messages.length
  let fold := coverageFold automation_rules messages
  { rule_id := rule.id
    rule_name := rule.name
    rule_actions := rule.remediativeActionTypes
    total_message_groups := total
    covered_message_groups := fold.1
    uncovered_message_groups := total - fold.1
    percent_covered := if 0 < total then .num ((fold.1 : ℚ) / total * 100) else .num 0
    automation_actions := fold.2
    error := none
    has_message_groups := true }

/-- The body of the per-rule loop of `DataProcessor.analyze_coverage`:
no message groups → "unknown"/no-data result; fetch error → error result;
otherwise `_calculate_rule_coverage`. -/
def analyzeOne (automation_rules : List MRule)
    (fetch : String → Except String (List MMessage)) (rule : MRule) : CoverageResult :=
  match fetch rule.id with
  | .ok messages =>
    if messages.isEmpty then
      { rule_id := rule.id
        rule_name := rule.name
        rule_actions := rule.remediativeActionTypes
        total_message_groups := 0
        covered_message_groups := 0
        uncovered_message_groups := 0
        percent_covered := .unknown
        automation_actions := getAutomationActions automation_rules
        error := none
        has_message_groups := false }
    else calculateRuleCoverage rule messages automation_rules
  | .error e =>
    { rule_id := rule.id
      rule_name := rule.name
      rule_actions := rule.remediativeActionTypes
      total_message_groups := 0
      covered_message_groups := 0
      uncovered_message_groups := 0
      percent_covered := .unknown
      automation_actions := getAutomationActions automation_rules
      error := some e
      has_message_groups := false }

/-- `DataProcessor.analyze_coverage`: one result per detection rule, in
order. -/
def analyzeCoverage (detection_rules automation_rules : List MRule)
    (fetch : String → Except String (List MMessage)) : List CoverageResult :=
  detection_rules.map (analyzeOne automation_rules fetch)

/-- Python `round(q, 2)` on the coverage percentage, modelled as rational
rounding to 2 decimal places (no claim exercises a float half-way case). -/
def round2 (q : ℚ) : ℚ := ((round (q * 100) : ℤ) : ℚ) / 100

/-- `CoverageResult.to_dict` (models/__init__.py lines 138-150). -/
def CoverageResult.toDict (r : CoverageResult) : List (String × Jx) :=
  [("rule_id", .str r.rule_id),
   ("rule_name", .str r.rule_name),
   ("rule_actions", .str (String.intercalate "," r.rule_actions)),
   ("automation_actions", .str (String.intercalate "," r.automation_actions)),
   ("total_message_groups", .num r.total_message_groups),
   ("covered_message_groups", .num r.covered_message_groups),
   ("uncovered_message_groups", .num r.uncovered_message_groups),
   ("percent_covered",
     match r.percent_covered with
     | .unknown => .str "unknown"
     | .num q => .num (round2 q)),
   ("has_message_groups", .bool r.has_message_groups),
   ("error", match r.error with | some e => .str e | none => .null)]

lemma coverageFold_count (automation_rules : List MRule) (messages : List MMessage) :
    (coverageFold automation_rules messages).1 =
      (messages.filter (fun m => !(coveredIds automation_rules m).isEmpty)).length := by
  suffices haux : ∀ (msgs : List MMessage) (c : Nat) (acts : List String),
      (msgs.foldl
        (fun acc m =>
          let flaggedAutomationIds := coveredIds automation_rules m
          if flaggedAutomationIds.isEmpty then acc
          else
            (acc.1 + 1,
             flaggedAutomationIds.foldl
               (fun acts i =>
                 match automation_rules.reverse.find? (fun ar => ar.id == i) with
                 | some ar => addAll acts ar.remediativeActionTypes
                 | none => acts)
               acc.2))
        (c, acts)).1 =
      c + (msgs.filter (fun m => !(coveredIds automation_rules m).isEmpty)).length by
    rw [coverageFold, haux]
    simp
  intro msgs
  induction msgs with
  | nil => intro c acts; simp
  | cons m ms ih =>
    intro c acts
    cases hemp : (coveredIds automation_rules m).isEmpty
    · simp only [List.foldl_cons, List.filter_cons, hemp, Bool.not_false, if_true,
        Bool.false_eq_true, if_false, List.length_cons]
      rw [ih]
      omega
    · simp only [List.foldl_cons, List.filter_cons, hemp, Bool.not_true, if_true,
        Bool.false_eq_true, if_false]
      exact ih c acts

lemma round2_bounds (q : ℚ) (h0 : 0 ≤ q) (h1 : q ≤ 100) :
    0 ≤ round2 q ∧ round2 q ≤ 100 := by
  have hr := round_eq (q * 100)
  constructor
  · have hlow : (0 : ℤ) ≤ round (q * 100) := by
      rw [hr]
      exact Int.floor_nonneg.mpr (by linarith)
    rw [round2]
    positivity
  · have hup : round (q * 100) ≤ 10000 := by
      rw [hr]
      have hle : (⌊q * 100 + 1 / 2⌋ : ℚ) ≤ q * 100 + 1 / 2 := Int.floor_le _
      have : (⌊q * 100 + 1 / 2⌋ : ℚ) < 10001 := by linarith
      exact_mod_cast Int.lt_add_one_iff.mp (by exact_mod_cast this)
    rw [round2]
    rw [div_le_iff₀ (by norm_num : (0 : ℚ) < 100)]
    calc ((round (q * 100) : ℤ) : ℚ) ≤ 10000 := by exact_mod_cast hup
    _ = 100 * 100 := by norm_num

/-- C2: `analyze_coverage` produces one `CoverageResult` per detection rule;
a rule with zero flagged message groups gets `percent_covered = "unknown"` and
`has_message_groups = False`; a rule with 10 message groups of which exactly 4
are flagged by some automation rule gets `percent_covered = 40.0` and a
covered count of 4; and every produced result has `percent_covered = "unknown"`
iff `has_message_groups` is false, and otherwise carries a numeric percentage
in [0, 100] which `to_dict` serializes rounded to 2 decimals (still in
[0, 100]). -/
theorem c2_coverage_math (det auto : List MRule)
    (fetch : String → Except String (List MMessage)) :
    analyzeCoverage det auto fetch = det.map (analyzeOne auto fetch) ∧
    (∀ r : MRule, fetch r.id = .ok [] →
      (analyzeOne auto fetch r).percent_covered = .unknown ∧
      (analyzeOne auto fetch r).has_message_groups = false) ∧
    (∀ (r : MRule) (msgs : List MMessage), fetch r.id = .ok msgs →
      msgs.length = 10 →
      (msgs.filter (fun m => !(coveredIds auto m).isEmpty)).length = 4 →
      (analyzeOne auto fetch r).percent_covered = .num 40 ∧
      (analyzeOne auto fetch r).covered_message_groups = 4) ∧
    (∀ res ∈ analyzeCoverage det auto fetch,
      ((res.percent_covered = .unknown) ↔ res.has_message_groups = false) ∧
      (∀ q, res.percent_covered = .num q →
        0 ≤ q ∧ q ≤ 100 ∧
        lookupKey res.toDict "percent_covered" = some (.num (round2 q)) ∧
        0 ≤ round2 q ∧ round2 q ≤ 100)) := by
  have hkey : ∀ res : CoverageResult, ∀ q, res.percent_covered = .num q →
      lookupKey res.toDict "percent_covered" = some (.num (round2 q)) := by
    intro res q hq
    simp [CoverageResult.toDict, lookupKey, hq]
  have hcalc_pc : ∀ (r : MRule) (msgs : List MMessage), msgs ≠ [] →
      (calculateRuleCoverage r msgs auto).percent_covered =
        .num (((coverageFold auto msgs).1 : ℚ) / msgs.length * 100) := by
    intro r msgs hne
    have htotal : 0 < msgs.length := List.length_pos.mpr hne
    simp only [calculateRuleCoverage, if_pos htotal]
  have hcalc_has : ∀ (r : MRule) (msgs : List MMessage),
      (calculateRuleCoverage r msgs auto).has_message_groups = true := by
    intro r msgs
    simp only [calculateRuleCoverage]
  have hcalc_cov : ∀ (r : MRule) (msgs : List MMessage),
      (calculateRuleCoverage r msgs auto).covered_message_groups =
        (coverageFold auto msgs).1 := by
    intro r msgs
    simp only [calculateRuleCoverage]
  have hnum_bounds : ∀ msgs : List MMessage, msgs ≠ [] →
      0 ≤ ((coverageFold auto msgs).1 : ℚ) / msgs.length * 100 ∧
      ((coverageFold auto msgs).1 : ℚ) / msgs.length * 100 ≤ 100 := by
    intro msgs hne
    have htotal : 0 < msgs.length := List.length_pos.mpr hne
    have htq : (0 : ℚ) < (msgs.length : ℚ) := by exact_mod_cast htotal
    have hcov : (coverageFold auto msgs).1 ≤ msgs.length := by
      rw [coverageFold_count]
      exact List.length_filter_le _ _
    have hcq : ((coverageFold auto msgs).1 : ℚ) ≤ (msgs.length : ℚ) := by
      exact_mod_cast hcov
    constructor
    · positivity
    · rw [div_mul_eq_mul_div, div_le_iff₀ htq]
      nlinarith [hcq, htq]
  refine ⟨rfl, ?_, ?_, ?_⟩
  · intro r hr
    rw [analyzeOne, hr]
    exact ⟨rfl, rfl⟩
  · intro r msgs hr h10 h4
    have hne : msgs ≠ [] := by intro h; rw [h] at h10; simp at h10
    have hemp : msgs.isEmpty = false := by
      cases msgs with
      | nil => exact absurd rfl hne
      | cons a tl => rfl
    have hcov : (coverageFold auto msgs).1 = 4 := by rw [coverageFold_count, h4]
    rw [analyzeOne, hr]
    simp only [hemp, Bool.false_eq_true, if_false]
    constructor
    · rw [hcalc_pc r msgs hne, hcov, h10]
      norm_num
    · rw [hcalc_cov r msgs, hcov]
  · intro res hres
    rw [analyzeCoverage, List.mem_map] at hres
    obtain ⟨r, _, rfl⟩ := hres
    rw [analyzeOne]
    cases hf : fetch r.id with
    | error e =>
      refine ⟨by simp, ?_⟩
      intro q hq
      exact absurd hq (by simp)
    | ok msgs =>
      cases hemp : msgs.isEmpty
      · have hne : msgs ≠ [] := by
          intro h; rw [h] at hemp; exact absurd hemp (by simp)
        simp only [hemp, Bool.false_eq_true, if_false]
        constructor
        · rw [hcalc_pc r msgs hne, hcalc_has r msgs]
          constructor
          · intro h; exact absurd h (by simp)
          · intro h; exact absurd h (by simp)
        · intro q hq
          rw [hcalc_pc r msgs hne, Percent.num.injEq] at hq
          subst hq
          obtain ⟨hq0, hq1⟩ := hnum_bounds msgs hne
          obtain ⟨hr0, hr1⟩ := round2_bounds _ hq0 hq1
          exact ⟨hq0, hq1, hkey _ _ (hcalc_pc r msgs hne), hr0, hr1⟩
      · have hnil : msgs = [] := by
          cases msgs with
          | nil => rfl
          | cons a tl => exact absurd hemp (by simp)
        subst hnil
        simp only [if_true]
        refine ⟨by simp, ?_⟩
        intro q hq
        exact absurd hq (by simp)

/-! ## C7 — `DataProcessor.get_rules_above_threshold`
(services/data_processor.py lines 120-129).

The list comprehension reads `result.has_messages`, but `CoverageResult`
(models/__init__.py) defines `has_message_groups` and no `has_messages`
attribute — so evaluating that attribute access raises `AttributeError`.
Due to `and` short-circuiting, the access is reached exactly when a result's
`percent_covered` is numeric and at least the threshold. -/

/-- Attribute access `result.has_messages`: always raises, since
`CoverageResult` has no such attribute (its field is `has_message_groups`). -/
def hasMessagesAttr (_ : CoverageResult) : Except String Bool :=
  .error "AttributeError: CoverageResult object has no attribute has_messages"

/-- Python truthiness of `not result.error` (None and the empty string are
falsy). -/
def errorFalsy : Option String → Bool
  | none => true
  | some e => e == ""

/-- `get_rules_above_threshold(results, threshold)`: the list comprehension
with its left-to-right short-circuit evaluation; raising propagates from the
first element whose `has_messages` access is reached. -/
def getRulesAboveThreshold (results : List CoverageResult) (threshold : ℚ) :
    Except String (List CoverageResult) :=
  match results with
  | [] => .ok []
  | r :: rs =>
    match r.percent_covered with
    | .num q =>
      if threshold ≤ q then
        match hasMessagesAttr r with
        | .error e => .error e
        | .ok b =>
          if b && errorFalsy r.error then
            (getRulesAboveThreshold rs threshold).map (r :: ·)
          else getRulesAboveThreshold rs threshold
      else getRulesAboveThreshold rs threshold
    | .unknown => getRulesAboveThreshold rs threshold

/-- C7: the claim says `get_rules_above_threshold` returns, without raising,
exactly the results with numeric coverage at least the threshold, message
data and no error — but on such an input the code raises `AttributeError`
(`has_messages` does not exist on `CoverageResult`): here a single result
with 80% coverage and threshold 50 produces the error, not a one-element
list. -/
theorem c7_get_rules_above_threshold_attribute_bug :
    getRulesAboveThreshold
        [{ rule_id := "rule-1", rule_name := "Rule 1",
           rule_actions := ["quarantine_message"],
           total_message_groups := 10, covered_message_groups := 8,
           uncovered_message_groups := 2, percent_covered := .num 80,
           automation_actions := ["quarantine_message"], error := none,
           has_message_groups := true }] 50 =
      .error "AttributeError: CoverageResult object has no attribute has_messages" := by
  rfl

/-! ## C5 — sublime-migration-cli `models/action.py`: `Action.to_dict`
(lines 38-67) and `Action._redact_config` (lines 69-122).

Python dict copies are irrelevant in the pure model.  `header["name"].lower()`
raises `AttributeError` when a header's name is not a string, so the redaction
is `Except`-valued; `headerWellFormed` characterizes the headers on which it
cannot raise. -/

/-- Python truthiness of a JSON value (`if self.config:`). -/
def jxTruthy : Jx → Bool
  | .null => false
  | .bool b => b
  | .num q => !(q == 0)
  | .str s => !(s == "")
  | .arr xs => !xs.isEmpty
  | .obj kvs => !kvs.isEmpty

/-- The `sensitive_headers` set of `_redact_config`. -/
def sensitiveHeaderNames : List String :=
  ["authorization", "x-api-key", "api-key", "token", "x-auth", "auth",
   "secret", "password", "key"]

/-- The generic `sensitive_keys` set of `_redact_config`. -/
def sensitiveKeys : List String :=
  ["secret", "password", "token", "api_key", "key", "auth"]

/-- Python `s.lower()` (per-character lowering). -/
def strLower (s : String) : String := String.mk (s.data.map Char.toLower)

/-- `any(sensitive in name.lower() for sensitive in pats)`. -/
def isSensitiveName (name : String) (pats : List String) : Bool :=
  pats.any (fun p => strHasSub (strLower name) p)

/-- Python `s.split(sep, 1)`: the part before the first occurrence of `sep`
and the remainder (everything if `sep` does not occur). -/
def pySplitOnce (s sep : String) : String × String :=
  match s.splitOn sep with
  | [] => (s, "")
  | p :: rest => (p, String.intercalate sep rest)

/-- The endpoint-URL auth redaction block of `_redact_config`. -/
def redactEndpoint (kvs : List (String × Jx)) : List (String × Jx) :=
  match lookupKey kvs "endpoint" with
  | some (.str ep) =>
    if strHasSub ep "@" then
      let parts := pySplitOnce ep "@"
      if strHasSub parts.1 "://" then
        setKey kvs "endpoint"
          (.str ((pySplitOnce parts.1 "://").1 ++ "://[REDACTED]@" ++ parts.2))
      else kvs
    else kvs
  | _ => kvs

/-- A custom-headers entry on which the header loop cannot raise: if it is a
dict carrying both `name` and `value`, its `name` is a string. -/
def headerWellFormed : Jx → Bool
  | .obj entries =>
    match lookupKey entries "name", lookupKey entries "value" with
    | some (.str _), some _ => true
    | some _, some _ => false
    | _, _ => true
  | _ => true

/-- The body of the custom-headers loop for one header (the raising
`header["name"].lower()` is the `.error` case). -/
def redactHeader : Jx → Except String Jx
  | .obj entries =>
    match lookupKey entries "name", lookupKey entries "value" with
    | some (.str name), some _ =>
      if isSensitiveName name sensitiveHeaderNames then
        .ok (.obj (setKey entries "value" (.str "[REDACTED]")))
      else .ok (.obj entries)
    | some _, some _ => .error "AttributeError: lower called on a non-string header name"
    | _, _ => .ok (.obj entries)
  | other => .ok other

/-- The total function `redactHeader` agrees with on well-formed headers. -/
def redactHeaderFn : Jx → Jx
  | .obj entries =>
    match lookupKey entries "name", lookupKey entries "value" with
    | some (.str name), some _ =>
      if isSensitiveName name sensitiveHeaderNames then
        .obj (setKey entries "value" (.str "[REDACTED]"))
      else .obj entries
    | _, _ => .obj entries
  | other => other

/-- The custom-headers loop over the whole list. -/
def redactHeadersList : List Jx → Except String (List Jx)
  | [] => .ok []
  | h :: t => do
    let h2 ← redactHeader h
    let t2 ← redactHeadersList t
    pure (h2 :: t2)

/-- The final generic-redaction pass of `_redact_config` applied to one
entry. -/
def genericRedactEntry (kv : String × Jx) : String × Jx :=
  if isSensitiveName kv.1 sensitiveKeys then (kv.1, .str "[REDACTED]") else kv

/-- `Action._redact_config(config)` for an action of type `type_`. -/
def redactConfig (type_ : String) (config : Jx) : Except String Jx :=
  match config with
  | .obj kvs => do
    let kvs1 ←
      if type_ == "webhook" then do
        let a := if (lookupKey kvs "secret").isSome
          then setKey kvs "secret" (.str "[REDACTED]") else kvs
        let b := redactEndpoint a
        match lookupKey b "custom_headers" with
        | some (.arr hs) => do
          let hs2 ← redactHeadersList hs
          pure (setKey b "custom_headers" (.arr hs2))
        | _ => pure b
      else pure kvs
    pure (.obj (kvs1.map genericRedactEntry))
  | other => .ok other

/-- sublime-migration-cli `Action` (models/action.py). -/
structure Action where
  id : String
  name : String
  type : String
  active : Bool
  config : Option Jx
  created_at : Option String
  updated_at : Option String

/-- `if self.created_at: result["created_at"] = self.created_at` — appends the
key when the optional string is truthy (neither `None` nor empty). -/
def appendIfTruthy (base : List (String × Jx)) (key : String) :
    Option String → List (String × Jx)
  | none => base
  | some s => if s == "" then base else base ++ [(key, .str s)]

/-- `Action.to_dict(include_sensitive)`. -/
def Action.toDict (a : Action) (include_sensitive : Bool) :
    Except String (List (String × Jx)) := do
  let base := [("id", Jx.str a.id), ("name", Jx.str a.name),
               ("type", Jx.str a.type), ("active", Jx.bool a.active)]
  let base := appendIfTruthy base "created_at" a.created_at
  let base := appendIfTruthy base "updated_at" a.updated_at
  match a.config with
  | some cfg =>
    if jxTruthy cfg then
      if include_sensitive then pure (base ++ [("config", cfg)])
      else do
        let rc ← redactConfig a.type cfg
        pure (base ++ [("config", rc)])
    else pure base
  | none => pure base

lemma lookupKey_setKey_self (kvs : List (String × Jx)) (k : String) (v : Jx) :
    lookupKey (setKey kvs k v) k = some v := by
  induction kvs with
  | nil => simp [setKey, lookupKey]
  | cons kv tl ih =>
    obtain ⟨k1, v1⟩ := kv
    by_cases h : k1 = k
    · subst h
      simp [setKey, lookupKey]
    · have hb : (k1 == k) = false := by simp [h]
      simp only [setKey, hb, Bool.false_eq_true, if_false, lookupKey, ih]

lemma lookupKey_setKey_ne (kvs : List (String × Jx)) (k k2 : String) (v : Jx)
    (h : k ≠ k2) :
    lookupKey (setKey kvs k v) k2 = lookupKey kvs k2 := by
  induction kvs with
  | nil =>
    have hb : (k == k2) = false := by simp [h]
    simp [setKey, lookupKey, hb]
  | cons kv tl ih =>
    obtain ⟨k1, v1⟩ := kv
    by_cases h1 : k1 = k
    · subst h1
      have hb : (k1 == k1) = true := by simp
      have hb2 : (k1 == k2) = false := by simp [h]
      simp [setKey, lookupKey, hb, hb2]
    · have hb : (k1 == k) = false := by simp [h1]
      simp only [setKey, hb, Bool.false_eq_true, if_false, lookupKey, ih]

lemma lookupKey_append_single_ne (xs : List (String × Jx)) (key : String) (v : Jx)
    (k : String) (h : key ≠ k) :
    lookupKey (xs ++ [(key, v)]) k = lookupKey xs k := by
  induction xs with
  | nil =>
    have hb : (key == k) = false := by simp [h]
    simp [lookupKey, hb]
  | cons kv tl ih =>
    obtain ⟨k1, v1⟩ := kv
    by_cases h1 : k1 = k
    · subst h1
      simp [lookupKey]
    · have hb : (k1 == k) = false := by simp [h1]
      simp only [List.cons_append, lookupKey, hb, Bool.false_eq_true, if_false]
      exact ih

lemma lookupKey_append_right (xs ys : List (String × Jx)) (k : String)
    (h : lookupKey xs k = none) :
    lookupKey (xs ++ ys) k = lookupKey ys k := by
  induction xs with
  | nil => simp
  | cons kv tl ih =>
    obtain ⟨k1, v1⟩ := kv
    by_cases h1 : k1 = k
    · subst h1
      simp [lookupKey] at h
    · have hb : (k1 == k) = false := by simp [h1]
      simp only [lookupKey, hb, Bool.false_eq_true, if_false] at h
      simp only [List.cons_append, lookupKey, hb, Bool.false_eq_true, if_false]
      exact ih h

lemma lookupKey_appendIfTruthy_ne (base : List (String × Jx)) (key : String)
    (o : Option String) (k : String) (h : key ≠ k) :
    lookupKey (appendIfTruthy base key o) k = lookupKey base k := by
  cases o with
  | none => rfl
  | some s =>
    by_cases hs : s == ""
    · simp [appendIfTruthy, hs]
    · simp only [appendIfTruthy, hs, Bool.false_eq_true, if_false]
      exact lookupKey_append_single_ne base key (.str s) k h

lemma lookupKey_map_genericRedact (kvs : List (String × Jx)) (k : String) :
    lookupKey (kvs.map genericRedactEntry) k =
      (lookupKey kvs k).map
        (fun v => if isSensitiveName k sensitiveKeys then Jx.str "[REDACTED]" else v) := by
  induction kvs with
  | nil => simp [lookupKey]
  | cons kv tl ih =>
    obtain ⟨k1, v1⟩ := kv
    have hentry : genericRedactEntry (k1, v1) =
        (k1, if isSensitiveName k1 sensitiveKeys then Jx.str "[REDACTED]" else v1) := by
      rw [genericRedactEntry]
      by_cases hsens : isSensitiveName k1 sensitiveKeys <;> simp [hsens]
    rw [List.map_cons, hentry]
    by_cases h : k1 = k
    · subst h
      simp [lookupKey]
    · have hb : (k1 == k) = false := by simp [h]
      simp only [lookupKey, hb, Bool.false_eq_true, if_false, ih]

lemma redactHeadersList_ok (hs : List Jx) (hwf : hs.all headerWellFormed = true) :
    redactHeadersList hs = .ok (hs.map redactHeaderFn) := by
  induction hs with
  | nil => rfl
  | cons h t ih =>
    rw [List.all_cons, Bool.and_eq_true] at hwf
    obtain ⟨hwf1, hwf2⟩ := hwf
    have hh : redactHeader h = .ok (redactHeaderFn h) := by
      cases h with
      | obj entries =>
        rw [headerWellFormed] at hwf1
        rw [redactHeader, redactHeaderFn]
        cases hn : lookupKey entries "name" with
        | none => cases hv : lookupKey entries "value" <;> simp
        | some nv =>
          cases hv : lookupKey entries "value" with
          | none => cases nv <;> simp
          | some vv =>
            cases nv with
            | str name => by_cases hsens : isSensitiveName name sensitiveHeaderNames <;>
                simp [hsens]
            | null => rw [hn, hv] at hwf1; simp at hwf1
            | bool b => rw [hn, hv] at hwf1; simp at hwf1
            | num q => rw [hn, hv] at hwf1; simp at hwf1
            | arr xs => rw [hn, hv] at hwf1; simp at hwf1
            | obj o => rw [hn, hv] at hwf1; simp at hwf1
      | null => rfl
      | bool b => rfl
      | num q => rfl
      | str s => rfl
      | arr xs => rfl
    rw [redactHeadersList, hh, ih hwf2]
    rfl

lemma lookupKey_redactEndpoint_ne (kvs : List (String × Jx)) (k : String)
    (h : k ≠ "endpoint") :
    lookupKey (redactEndpoint kvs) k = lookupKey kvs k := by
  rw [redactEndpoint]
  cases he : lookupKey kvs "endpoint" with
  | none => rfl
  | some v =>
    cases v with
    | str ep =>
      by_cases h1 : strHasSub ep "@"
      · simp only [h1, if_true]
        by_cases h2 : strHasSub (pySplitOnce ep "@").1 "://"
        · simp only [h2, if_true]
          exact lookupKey_setKey_ne kvs "endpoint" k _ (fun hc => h hc.symm)
        · simp [h2]
      · simp [h1]
    | null => rfl
    | bool b => rfl
    | num q => rfl
    | arr xs => rfl
    | obj o => rfl

/-- C5: for a webhook action whose config has a `secret` key and a
`custom_headers` entry named `Authorization`, `to_dict(include_sensitive=True)`
returns the config object literally unchanged (both sensitive values
preserved), and `to_dict(include_sensitive=False)` returns a config in which
the secret value and that header's value are both the literal string
`"[REDACTED]"`. -/
theorem c5_action_to_dict_redaction
    (a : Action) (kvs : List (String × Jx)) (hs : List Jx)
    (hkvs : List (String × Jx)) (i : Nat) (sv hv : Jx)
    (htype : a.type = "webhook")
    (hcfg : a.config = some (.obj kvs))
    (hsecret : lookupKey kvs "secret" = some sv)
    (hch : lookupKey kvs "custom_headers" = some (.arr hs))
    (hi : hs[i]? = some (.obj hkvs))
    (hname : lookupKey hkvs "name" = some (.str "Authorization"))
    (hvalue : lookupKey hkvs "value" = some hv)
    (hwf : hs.all headerWellFormed = true) :
    (∃ d, a.toDict true = .ok d ∧ lookupKey d "config" = some (.obj kvs)) ∧
    (∃ d kvs2 hs2 hkvs2, a.toDict false = .ok d ∧
      lookupKey d "config" = some (.obj kvs2) ∧
      lookupKey kvs2 "secret" = some (.str "[REDACTED]") ∧
      lookupKey kvs2 "custom_headers" = some (.arr hs2) ∧
      hs2[i]? = some (.obj hkvs2) ∧
      lookupKey hkvs2 "name" = some (.str "Authorization") ∧
      lookupKey hkvs2 "value" = some (.str "[REDACTED]")) := by
  have hkne : kvs ≠ [] := by
    intro h; rw [h] at hsecret; simp [lookupKey] at hsecret
  have htruthy : jxTruthy (.obj kvs) = true := by
    rw [jxTruthy, Bool.not_eq_eq_eq_not, Bool.not_true, List.isEmpty_eq_false]
    exact hkne
  have hbase_cfg : ∀ c : Jx,
      lookupKey (appendIfTruthy (appendIfTruthy
        [("id", Jx.str a.id), ("name", Jx.str a.name),
         ("type", Jx.str a.type), ("active", Jx.bool a.active)]
        "created_at" a.created_at) "updated_at" a.updated_at ++ [("config", c)])
        "config" = some c := by
    intro c
    rw [lookupKey_append_right]
    · rfl
    · rw [lookupKey_appendIfTruthy_ne _ _ _ _ (by decide),
        lookupKey_appendIfTruthy_ne _ _ _ _ (by decide)]
      rfl
  constructor
  · have htd : a.toDict true =
        .ok (appendIfTruthy (appendIfTruthy
          [("id", Jx.str a.id), ("name", Jx.str a.name),
           ("type", Jx.str a.type), ("active", Jx.bool a.active)]
          "created_at" a.created_at) "updated_at" a.updated_at ++
          [("config", .obj kvs)]) := by
      rw [Action.toDict, hcfg]
      simp only [htruthy, if_true]
      rfl
    exact ⟨_, htd, hbase_cfg (.obj kvs)⟩
  · -- the redacted path
    have hsec_isSome : (lookupKey kvs "secret").isSome = true := by rw [hsecret]; rfl
    set b := redactEndpoint (setKey kvs "secret" (.str "[REDACTED]")) with hb
    have hb_ch : lookupKey b "custom_headers" = some (.arr hs) := by
      rw [hb, lookupKey_redactEndpoint_ne _ _ (by decide),
        lookupKey_setKey_ne _ _ _ _ (by decide), hch]
    have hb_sec : lookupKey b "secret" = some (.str "[REDACTED]") := by
      rw [hb, lookupKey_redactEndpoint_ne _ _ (by decide), lookupKey_setKey_self]
    have hrc : redactConfig a.type (.obj kvs) =
        .ok (.obj ((setKey b "custom_headers"
          (.arr (hs.map redactHeaderFn))).map genericRedactEntry)) := by
      rw [htype, redactConfig]
      simp only [beq_self_eq_true, if_true, hsec_isSome, ← hb, hb_ch,
        redactHeadersList_ok hs hwf]
      rfl
    set kvs1 := setKey b "custom_headers" (.arr (hs.map redactHeaderFn)) with hkvs1
    have htd2 : a.toDict false =
        .ok (appendIfTruthy (appendIfTruthy
          [("id", Jx.str a.id), ("name", Jx.str a.name),
           ("type", Jx.str a.type), ("active", Jx.bool a.active)]
          "created_at" a.created_at) "updated_at" a.updated_at ++
          [("config", .obj (kvs1.map genericRedactEntry))]) := by
      rw [Action.toDict, hcfg]
      simp only [htruthy, if_true, Bool.false_eq_true, if_false]
      rw [hrc]
      rfl
    refine ⟨_, kvs1.map genericRedactEntry, (hs.map redactHeaderFn),
      setKey hkvs "value" (.str "[REDACTED]"), htd2, hbase_cfg _, ?_, ?_, ?_, ?_, ?_⟩
    · rw [lookupKey_map_genericRedact, hkvs1,
        lookupKey_setKey_ne _ _ _ _ (by decide), hb_sec]
      rfl
    · rw [lookupKey_map_genericRedact, hkvs1, lookupKey_setKey_self]
      rfl
    · rw [List.getElem?_map, hi]
      have hsens : isSensitiveName "Authorization" sensitiveHeaderNames = true := by decide
      simp [redactHeaderFn, hname, hvalue, hsens]
    · exact (lookupKey_setKey_ne hkvs "value" "name" _ (by decide)).trans hname
    · exact lookupKey_setKey_self hkvs "value" _

/-- C5 witness: a concrete webhook action with a secret and an
`Authorization` custom header. -/
theorem c5_action_to_dict_redaction_witness :
    (∃ d, Action.toDict
        ⟨"a1", "Hook", "webhook", true,
         some (.obj [("secret", .str "s3cr3t"),
                     ("custom_headers",
                      .arr [.obj [("name", .str "Authorization"),
                                  ("value", .str "Bearer tok")]])]),
         none, none⟩ true = .ok d ∧
      lookupKey d "config" =
        some (.obj [("secret", .str "s3cr3t"),
                    ("custom_headers",
                     .arr [.obj [("name", .str "Authorization"),
                                 ("value", .str "Bearer tok")]])])) ∧
    (∃ d kvs2 hs2 hkvs2, Action.toDict
        ⟨"a1", "Hook", "webhook", true,
         some (.obj [("secret", .str "s3cr3t"),
                     ("custom_headers",
                      .arr [.obj [("name", .str "Authorization"),
                                  ("value", .str "Bearer tok")]])]),
         none, none⟩ false = .ok d ∧
      lookupKey d "config" = some (.obj kvs2) ∧
      lookupKey kvs2 "secret" = some (.str "[REDACTED]") ∧
      lookupKey kvs2 "custom_headers" = some (.arr hs2) ∧
      hs2[0]? = some (.obj hkvs2) ∧
      lookupKey hkvs2 "name" = some (.str "Authorization") ∧
      lookupKey hkvs2 "value" = some (.str "[REDACTED]")) :=
  c5_action_to_dict_redaction
    ⟨"a1", "Hook", "webhook", true,
     some (.obj [("secret", .str "s3cr3t"),
                 ("custom_headers",
                  .arr [.obj [("name", .str "Authorization"),
                              ("value", .str "Bearer tok")]])]),
     none, none⟩
    [("secret", .str "s3cr3t"),
     ("custom_headers",
      .arr [.obj [("name", .str "Authorization"), ("value", .str "Bearer tok")]])]
    [.obj [("name", .str "Authorization"), ("value", .str "Bearer tok")]]
    [("name", .str "Authorization"), ("value", .str "Bearer tok")]
    0 (.str "s3cr3t") (.str "Bearer tok")
    rfl rfl rfl rfl rfl rfl rfl rfl

/-! ## C6 — getMaliciousSenders/main.py:
`MaliciousSenderExtractor.extract_sender_emails` (lines 106-146) and
`save_to_file` (lines 148-167).

A page is the API response as seen by the loop: the value under
`message_groups` (default `[]`) and the raw value under `sender_email__info`.
The loop stops at the first page whose `message_groups` is empty (without
harvesting it) or has fewer than 500 entries (after harvesting it); otherwise
it advances the offset by 500, i.e. to the next page index.  The Python `set`
accumulator is modelled by accumulating all keys and deduplicating at output
time; `save_to_file` writes `sorted(sender_emails)` — one line per address,
verbatim. -/

/-- One `/v1/messages/groups` response page. -/
structure SenderPage where
  message_groups : List Jx
  sender_email_info : Jx

/-- The keys harvested from a page: the keys of `sender_email__info` when it
is a truthy dict (`if sender_info and isinstance(sender_info, dict)`),
nothing otherwise. -/
def harvestKeys : Jx → List String
  | .obj kvs => if kvs.isEmpty then [] else kvs.map Prod.fst
  | _ => []

/-- The pagination loop of `extract_sender_emails`, by page index
(`offset / 500`), with fuel for the unbounded `while True`. -/
def extractAux (pages : Nat → SenderPage) : Nat → Nat → Option (List String)
  | 0, _ => none
  | fuel + 1, j =>
    let page := pages j
    if page.message_groups.isEmpty then some []
    else
      let ks := harvestKeys page.sender_email_info
      if page.message_groups.length < 500 then some ks
      else (extractAux pages fuel (j + 1)).map (fun rest => ks ++ rest)

/-- `extract_sender_emails`: the multiset of keys accumulated over the run
(deduplication happens in the set/`save_to_file` stage). -/
def extractSenderEmails (pages : Nat → SenderPage) (fuel : Nat) : Option (List String) :=
  extractAux pages fuel 0

/-- `save_to_file`: the lines written — `sorted(set(emails))`, each address
verbatim. -/
def saveLines (emails : List String) : List String :=
  (emails.dedup).mergeSort (fun a b => a ≤ b)

/-- Page `k` lets the loop continue: non-empty and at least 500 groups. -/
def pageFull (pages : Nat → SenderPage) (k : Nat) : Prop :=
  (pages k).message_groups ≠ [] ∧ 500 ≤ (pages k).message_groups.length

/-- Page `m` is reached from page `j` and harvested: all pages in between are
full and page `m` has message groups. -/
def harvestedAt (pages : Nat → SenderPage) (j m : Nat) : Prop :=
  j ≤ m ∧ (∀ k, j ≤ k → k < m → pageFull pages k) ∧ (pages m).message_groups ≠ []

lemma extractAux_mem (pages : Nat → SenderPage) (s : String) :
    ∀ (fuel j : Nat) (acc : List String), extractAux pages fuel j = some acc →
      (s ∈ acc ↔ ∃ m, harvestedAt pages j m ∧
        s ∈ harvestKeys (pages m).sender_email_info) := by
  intro fuel
  induction fuel with
  | zero => intro j acc h; simp [extractAux] at h
  | succ f ih =>
    intro j acc h
    rw [extractAux] at h
    by_cases hemp : (pages j).message_groups.isEmpty
    · rw [if_pos hemp] at h
      obtain rfl : ([] : List String) = acc := Option.some.inj h
      have hjnil : (pages j).message_groups = [] := by
        cases hl : (pages j).message_groups with
        | nil => rfl
        | cons a tl => rw [hl] at hemp; exact absurd hemp (by simp)
      constructor
      · intro hs; simp at hs
      · rintro ⟨m, ⟨hjm, hfull, hmne⟩, _⟩
        rcases Nat.eq_or_lt_of_le hjm with rfl | hlt
        · exact absurd hjnil hmne
        · exact absurd hjnil (hfull j (le_refl j) hlt).1
    · have hne : (pages j).message_groups ≠ [] := by
        intro hc; rw [hc] at hemp; exact hemp rfl
      rw [if_neg hemp] at h
      by_cases hshort : (pages j).message_groups.length < 500
      · rw [if_pos hshort] at h
        obtain rfl : harvestKeys (pages j).sender_email_info = acc := Option.some.inj h
        constructor
        · intro hs
          exact ⟨j, ⟨le_refl j, fun k hk1 hk2 => absurd (lt_of_le_of_lt hk1 hk2)
            (lt_irrefl j), hne⟩, hs⟩
        · rintro ⟨m, ⟨hjm, hfull, hmne⟩, hsm⟩
          rcases Nat.eq_or_lt_of_le hjm with rfl | hlt
          · exact hsm
          · exact absurd (hfull j (le_refl j) hlt).2 (by omega)
      · rw [if_neg hshort] at h
        rw [Option.map_eq_some'] at h
        obtain ⟨rest, hrest, hacc⟩ := h
        subst hacc
        have hih := ih (j + 1) rest hrest
        have hfj : pageFull pages j := ⟨hne, Nat.not_lt.mp hshort⟩
        constructor
        · intro hs
          rcases List.mem_append.mp hs with hs1 | hs2
          · exact ⟨j, ⟨le_refl j, fun k hk1 hk2 => absurd (lt_of_le_of_lt hk1 hk2)
              (lt_irrefl j), hne⟩, hs1⟩
          · obtain ⟨m, ⟨hjm, hfull, hmne⟩, hsm⟩ := hih.mp hs2
            refine ⟨m, ⟨by omega, fun k hk1 hk2 => ?_, hmne⟩, hsm⟩
            rcases Nat.eq_or_lt_of_le hk1 with rfl | hklt
            · exact hfj
            · exact hfull k (by omega) hk2
        · rintro ⟨m, ⟨hjm, hfull, hmne⟩, hsm⟩
          rcases Nat.eq_or_lt_of_le hjm with rfl | hlt
          · exact List.mem_append.mpr (Or.inl hsm)
          · exact List.mem_append.mpr (Or.inr (hih.mpr
              ⟨m, ⟨by omega, fun k hk1 hk2 => hfull k (by omega) hk2, hmne⟩, hsm⟩))

/-- A constant page stream whose (single fetched) page holds one message
group and the sender info key `A@b.com`. -/
def cexPages : Nat → SenderPage :=
  fun _ => ⟨[Jx.null], .obj [("A@b.com", Jx.null)]⟩

/-- C6 counterexample: the file-mode output is NOT lower-cased — an uppercase
address key `A@b.com` is emitted verbatim as `A@b.com`, not `a@b.com`. -/
theorem c6_lowercase_counterexample :
    extractSenderEmails cexPages 1 = some ["A@b.com"] ∧
    saveLines ["A@b.com"] = ["A@b.com"] ∧
    ("A@b.com" : String) ≠ "a@b.com" := by
  refine ⟨rfl, ?_, by decide⟩
  have hd : ("A@b.com" :: []).dedup = ["A@b.com"] := by decide
  rw [saveLines, hd]
  exact List.perm_singleton.mp (List.mergeSort_perm _ _)

/-- C6 (amended): whenever `extract_sender_emails` terminates, the file-mode
output lines are exactly the set-union of the `sender_email__info` keys of
the pages actually fetched and harvested (the loop stops at the first page
with zero message groups — not harvested — or with fewer than 500 — still
harvested), written one address per line VERBATIM (no case change), sorted
ascending and deduplicated; the output depends only on that key set, not on
the order keys arrive in. -/
theorem c6_sender_extraction (pages : Nat → SenderPage) (fuel : Nat)
    (acc : List String) (h : extractSenderEmails pages fuel = some acc) :
    List.Sorted (· ≤ ·) (saveLines acc) ∧
    (saveLines acc).Nodup ∧
    (∀ s, s ∈ saveLines acc ↔
      ∃ m, harvestedAt pages 0 m ∧ s ∈ harvestKeys (pages m).sender_email_info) ∧
    (∀ (pages2 : Nat → SenderPage) (fuel2 : Nat) (acc2 : List String),
      extractSenderEmails pages2 fuel2 = some acc2 →
      (∀ s : String,
        (∃ m, harvestedAt pages 0 m ∧ s ∈ harvestKeys (pages m).sender_email_info) ↔
        (∃ m, harvestedAt pages2 0 m ∧ s ∈ harvestKeys (pages2 m).sender_email_info)) →
      saveLines acc = saveLines acc2) := by
  have hmem : ∀ (p : Nat → SenderPage) (f : Nat) (a : List String),
      extractSenderEmails p f = some a → ∀ s,
      (s ∈ saveLines a ↔
        ∃ m, harvestedAt p 0 m ∧ s ∈ harvestKeys (p m).sender_email_info) := by
    intro p f a ha s
    rw [saveLines]
    rw [(List.mergeSort_perm a.dedup _).mem_iff, List.mem_dedup]
    exact extractAux_mem p s f 0 a ha
  have hsorted : ∀ a : List String, List.Sorted (· ≤ ·) (saveLines a) := by
    intro a
    exact List.sorted_mergeSort' a.dedup
  have hnodup : ∀ a : List String, (saveLines a).Nodup := by
    intro a
    exact ((List.mergeSort_perm a.dedup _).nodup_iff).mpr (List.nodup_dedup a)
  refine ⟨hsorted acc, hnodup acc, hmem pages fuel acc h, ?_⟩
  intro pages2 fuel2 acc2 h2 hiff
  have hperm : List.Perm (saveLines acc) (saveLines acc2) := by
    rw [List.perm_ext_iff_of_nodup (hnodup acc) (hnodup acc2)]
    intro s
    rw [hmem pages fuel acc h s, hmem pages2 fuel2 acc2 h2 s]
    exact hiff s
  exact List.eq_of_perm_of_sorted hperm (hsorted acc) (hsorted acc2)

/-- C6 witness: the amended theorem applied to the single-page stream with
one key. -/
theorem c6_sender_extraction_witness :
    List.Sorted (· ≤ ·) (saveLines ["A@b.com"]) ∧
    (saveLines ["A@b.com"]).Nodup ∧
    (∀ s, s ∈ saveLines ["A@b.com"] ↔
      ∃ m, harvestedAt cexPages 0 m ∧
        s ∈ harvestKeys (cexPages m).sender_email_info) ∧
    (∀ (pages2 : Nat → SenderPage) (fuel2 : Nat) (acc2 : List String),
      extractSenderEmails pages2 fuel2 = some acc2 →
      (∀ s : String,
        (∃ m, harvestedAt cexPages 0 m ∧
          s ∈ harvestKeys (cexPages m).sender_email_info) ↔
        (∃ m, harvestedAt pages2 0 m ∧
          s ∈ harvestKeys (pages2 m).sender_email_info)) →
      saveLines ["A@b.com"] = saveLines acc2) :=
  c6_sender_extraction cexPages 1 ["A@b.com"] rfl

/-! ## C8 — sublime-migration-cli `commands/migrate/rule_exclusions.py`:
`EXCLUSION_PATTERNS` (lines 19-23) and `parse_exclusion_string`
(lines 282-296); the identical patterns and loop are duplicated in
`commands/export/utils.py`, `parse_rule_exclusion` (lines 127-148).

Each regex has the shape `LITERAL'([^']+)'TAIL` — a literal prefix ending in
a single quote, a capture of one or more non-quote characters, a closing
quote, and a literal tail (`)` for the recipient pattern, empty for the
sender patterns).  Such a regex matches at a position iff the literal prefix
occurs there, followed by a non-empty maximal run of non-quote characters,
followed by the quote and the tail: the capture `[^']+` cannot backtrack to a
shorter run because the following `'` would then have to match a non-quote
character.  `group(1)` is that run, and `re.search` takes the leftmost
matching position.  `matchCapture`/`searchCapture` implement exactly this. -/

/-- The single-quote character (U+0027). -/
def qc : Char := Char.ofNat 39

/-- The `[^']` character class. -/
def notQuote : Char → Bool := fun c => !(c == qc)

/-- Whether the regex `P + capture + quote + suf` matches at the START of
`t`, returning the capture. -/
def matchCapture (P suf : List Char) (t : List Char) : Option (List Char) :=
  if P.isPrefixOf t then
    let r := t.drop P.length
    let run := r.takeWhile notQuote
    if run.isEmpty then none
    else if (qc :: suf).isPrefixOf (r.dropWhile notQuote) then some run
    else none
  else none

/-- `re.search`: the capture at the leftmost matching position. -/
def searchCapture (P suf : List Char) : List Char → Option (List Char)
  | [] => matchCapture P suf []
  | c :: tl =>
    match matchCapture P suf (c :: tl) with
    | some run => some run
    | none => searchCapture P suf tl

/-- The literal before the opening quote of the `recipient_email` pattern. -/
def recipientPre : List Char := "any(recipients.to, .email.email == ".toList

/-- The literal before the opening quote of the `sender_email` pattern. -/
def senderEmailPre : List Char := "sender.email.email == ".toList

/-- The literal before the opening quote of the `sender_domain` pattern. -/
def senderDomainPre : List Char := "sender.email.domain.domain == ".toList

/-- The `recipient_email` pattern up to and including the opening quote. -/
def recipientPat : List Char := recipientPre ++ [qc]

/-- The literal after the closing quote of the `recipient_email` pattern. -/
def recipientSuf : List Char := [')']

/-- The `sender_email` pattern up to and including the opening quote. -/
def senderEmailPat : List Char := senderEmailPre ++ [qc]

/-- The `sender_domain` pattern up to and including the opening quote. -/
def senderDomainPat : List Char := senderDomainPre ++ [qc]

/-- `parse_exclusion_string` / `parse_rule_exclusion`: try the three patterns
in dict insertion order, returning the first match's type and capture, `none`
when no pattern matches. -/
def parseExclusionSource (s : List Char) : Option (String × List Char) :=
  match searchCapture recipientPat recipientSuf s with
  | some v => some ("recipient_email", v)
  | none =>
    match searchCapture senderEmailPat [] s with
    | some v => some ("sender_email", v)
    | none =>
      match searchCapture senderDomainPat [] s with
      | some v => some ("sender_domain", v)
      | none => none

/-- The synthetically constructed source string for a recipient-email
exclusion with literal value `v`. -/
def recipientTemplate (v : List Char) : List Char :=
  recipientPat ++ v ++ (qc :: recipientSuf)

/-- The source string for a sender-email exclusion with value `v`. -/
def senderEmailTemplate (v : List Char) : List Char :=
  senderEmailPat ++ v ++ [qc]

/-- The source string for a sender-domain exclusion with value `v`. -/
def senderDomainTemplate (v : List Char) : List Char :=
  senderDomainPat ++ v ++ [qc]

lemma takeWhile_quoteFree (u : List Char) (hq : qc ∉ u) (y : List Char) :
    (u ++ qc :: y).takeWhile notQuote = u := by
  induction u with
  | nil => simp [List.takeWhile_cons, notQuote]
  | cons a tl ih =>
    have ha : a ≠ qc := fun h => hq (h ▸ List.mem_cons_self a tl)
    have hpred : notQuote a = true := by simp [notQuote, ha]
    rw [List.cons_append, List.takeWhile_cons, hpred, if_pos rfl,
      ih (fun h => hq (List.mem_cons_of_mem a h))]

lemma dropWhile_quoteFree (u : List Char) (hq : qc ∉ u) (y : List Char) :
    (u ++ qc :: y).dropWhile notQuote = qc :: y := by
  induction u with
  | nil => simp [List.dropWhile_cons, notQuote]
  | cons a tl ih =>
    have ha : a ≠ qc := fun h => hq (h ▸ List.mem_cons_self a tl)
    have hpred : notQuote a = true := by simp [notQuote, ha]
    rw [List.cons_append, List.dropWhile_cons, hpred, if_pos rfl,
      ih (fun h => hq (List.mem_cons_of_mem a h))]

lemma matchCapture_at0 (P suf v rest : List Char) (hv : v ≠ []) (hq : qc ∉ v) :
    matchCapture P suf (P ++ (v ++ (qc :: (suf ++ rest)))) = some v := by
  have hpre : P.isPrefixOf (P ++ (v ++ (qc :: (suf ++ rest)))) = true :=
    List.isPrefixOf_iff_prefix.mpr ⟨_, rfl⟩
  have hvne : v.isEmpty = false := by
    cases v with
    | nil => exact absurd rfl hv
    | cons a tl => rfl
  have hp2 : (qc :: suf).isPrefixOf (qc :: (suf ++ rest)) = true :=
    List.isPrefixOf_iff_prefix.mpr ⟨rest, by simp⟩
  simp only [matchCapture, hpre, if_true, List.drop_left,
    takeWhile_quoteFree v hq, dropWhile_quoteFree v hq, hvne,
    Bool.false_eq_true, if_false, hp2]

lemma searchCapture_at0 {P suf : List Char} {s v : List Char}
    (h : matchCapture P suf s = some v) : searchCapture P suf s = some v := by
  cases s with
  | nil => simp only [searchCapture]; exact h
  | cons c tl => simp only [searchCapture, h]

lemma searchCapture_none (P suf : List Char) (s : List Char)
    (h : ∀ i, matchCapture P suf (s.drop i) = none) :
    searchCapture P suf s = none := by
  induction s with
  | nil => simp only [searchCapture]; exact h 0
  | cons c tl ih =>
    have h0 := h 0
    rw [List.drop_zero] at h0
    simp only [searchCapture, h0]
    exact ih (fun i => by have hi := h (i + 1); rwa [List.drop_succ_cons] at hi)

lemma matchCapture_some_decomp {P suf t run : List Char}
    (h : matchCapture P suf t = some run) :
    ∃ rest, t = P ++ (run ++ (qc :: (suf ++ rest))) ∧ run ≠ [] ∧ qc ∉ run := by
  simp only [matchCapture] at h
  by_cases hpre : P.isPrefixOf t
  · rw [if_pos hpre] at h
    obtain ⟨r, rfl⟩ := List.isPrefixOf_iff_prefix.mp hpre
    rw [List.drop_left] at h
    by_cases hemp : (r.takeWhile notQuote).isEmpty
    · rw [if_pos hemp] at h; cases h
    · rw [if_neg hemp] at h
      by_cases hp2 : (qc :: suf).isPrefixOf (r.dropWhile notQuote)
      · rw [if_pos hp2] at h
        obtain rfl : r.takeWhile notQuote = run := Option.some.inj h
        obtain ⟨rest, hrest⟩ := List.isPrefixOf_iff_prefix.mp hp2
        refine ⟨rest, ?_, ?_, ?_⟩
        · have hr : r = r.takeWhile notQuote ++ (qc :: (suf ++ rest)) := by
            conv_lhs => rw [← List.takeWhile_append_dropWhile (p := notQuote) (l := r)]
            rw [← hrest]
            simp
          exact congrArg (fun x => P ++ x) hr
        · intro hc
          rw [hc] at hemp
          exact hemp rfl
        · intro hqmem
          have := List.mem_takeWhile_imp hqmem
          simp [notQuote] at this
      · rw [if_neg hp2] at h; cases h
  · rw [if_neg hpre] at h; cases h

lemma getLast?_ne_quote_of_not_mem (l : List Char) (h : qc ∉ l) :
    l.getLast? ≠ some qc := by
  intro hc
  obtain ⟨hne, heq⟩ := List.mem_getLast?_eq_getLast hc
  exact h (heq ▸ List.getLast_mem hne)

lemma count_decomp (P run suf rest : List Char) (hP1 : P.count qc = 1)
    (hrq : qc ∉ run) (hsufq : qc ∉ suf) :
    (P ++ (run ++ (qc :: (suf ++ rest)))).count qc = 2 + rest.count qc := by
  rw [List.count_append, List.count_append, hP1, List.count_eq_zero.mpr hrq,
    List.count_cons_self, List.count_append, List.count_eq_zero.mpr hsufq]
  omega

/-- No match at any position, when the haystack ends in a quote, holds at
most two quotes, the pattern holds exactly one, and the pattern's tail is
non-empty and quote-free: a match would force a quote-free character after
the haystack's final quote. -/
lemma matchCapture_none_endQuote (P suf s : List Char)
    (hP1 : P.count qc = 1) (hsufq : qc ∉ suf) (hsufne : suf ≠ [])
    (hcount : s.count qc ≤ 2) (hlast : s.getLast? = some qc) :
    ∀ i, matchCapture P suf (s.drop i) = none := by
  intro i
  cases hm : matchCapture P suf (s.drop i) with
  | none => rfl
  | some run =>
    exfalso
    obtain ⟨rest, hdecomp, hrne, hrq⟩ := matchCapture_some_decomp hm
    have hcountt : (s.drop i).count qc ≤ 2 :=
      le_trans ((List.drop_sublist i s).count_le qc) hcount
    rw [hdecomp, count_decomp P run suf rest hP1 hrq hsufq] at hcountt
    have hrestq : qc ∉ rest := List.count_eq_zero.mp (by omega)
    have htne : s.drop i ≠ [] := by
      rw [hdecomp]
      intro hc
      simp at hc
    have hlastt : (s.drop i).getLast? = some qc := by
      have h2 : (s.take i ++ s.drop i).getLast? = some qc := by
        rw [List.take_append_drop]
        exact hlast
      rwa [List.getLast?_append_of_ne_nil _ htne] at h2
    rw [hdecomp, List.getLast?_append_of_ne_nil _ (by simp),
      List.getLast?_append_of_ne_nil _ (by simp)] at hlastt
    have hsr : suf ++ rest ≠ [] := by
      intro hc
      rw [List.append_eq_nil] at hc
      exact hsufne hc.1
    rw [show qc :: (suf ++ rest) = [qc] ++ (suf ++ rest) from rfl,
      List.getLast?_append_of_ne_nil _ hsr] at hlastt
    refine getLast?_ne_quote_of_not_mem (suf ++ rest) ?_ hlastt
    intro hmem
    rcases List.mem_append.mp hmem with h1 | h2
    · exact hsufq h1
    · exact hrestq h2

/-- The `sender_email` pattern matches nowhere inside a sender-DOMAIN source
string: its trailing quote would have to align with one of the two quotes of
the string, which the literal prefix (at offset 8) and a quote count rule
out. -/
lemma matchCapture_senderEmail_none_on_domain (v : List Char) (hq : qc ∉ v) :
    ∀ i, matchCapture senderEmailPat [] ((senderDomainTemplate v).drop i) = none := by
  have hBq : qc ∉ senderDomainPre := by decide
  have hPq : qc ∉ senderEmailPre := by decide
  have hsform : senderDomainTemplate v = senderDomainPre ++ (qc :: (v ++ [qc])) := by
    rw [senderDomainTemplate, senderDomainPat]
    simp
  intro i
  cases hm : matchCapture senderEmailPat [] ((senderDomainTemplate v).drop i) with
  | none => rfl
  | some run =>
    exfalso
    obtain ⟨rest, hdecomp, hrne, hrq⟩ := matchCapture_some_decomp hm
    have hdecomp2 : (senderDomainTemplate v).drop i =
        senderEmailPre ++ (qc :: (run ++ (qc :: rest))) := by
      rw [hdecomp, senderEmailPat]
      simp
    by_cases hi : i ≤ 30
    · have h30 : senderDomainPre.length = 30 := by decide
      have ht : (senderDomainTemplate v).drop i =
          senderDomainPre.drop i ++ (qc :: (v ++ [qc])) := by
        rw [hsform, List.drop_append_eq_append_drop,
          show i - senderDomainPre.length = 0 by omega, List.drop_zero]
      have h1 : ((senderDomainTemplate v).drop i).takeWhile notQuote =
          senderDomainPre.drop i := by
        rw [ht]
        exact takeWhile_quoteFree _ (fun hmem => hBq (List.drop_subset i _ hmem)) _
      have h2 : ((senderDomainTemplate v).drop i).takeWhile notQuote =
          senderEmailPre := by
        rw [hdecomp2]
        exact takeWhile_quoteFree _ hPq _
      have hlen : (senderDomainPre.drop i).length = senderEmailPre.length := by
        rw [← h1, h2]
      rw [List.length_drop] at hlen
      have h22 : senderEmailPre.length = 22 := by decide
      have hi8 : i = 8 := by omega
      subst hi8
      have hcontra : senderDomainPre.drop 8 = senderEmailPre := by rw [← h1, h2]
      exact absurd hcontra (by decide)
    · push_neg at hi
      have h30 : senderDomainPre.length = 30 := by decide
      have ht2 : (senderDomainTemplate v).drop i = (v ++ [qc]).drop (i - 31) := by
        rw [hsform, List.drop_append_eq_append_drop,
          List.drop_eq_nil_of_le (by omega), List.nil_append,
          show i - senderDomainPre.length = (i - 31) + 1 by omega, List.drop_succ_cons]
      have hone : ((senderDomainTemplate v).drop i).count qc ≤ 1 := by
        rw [ht2]
        have hs : ((v ++ [qc]).drop (i - 31)).count qc ≤ (v ++ [qc]).count qc :=
          (List.drop_sublist _ _).count_le qc
        have hv1 : (v ++ [qc]).count qc = 1 := by
          rw [List.count_append, List.count_eq_zero.mpr hq]
          simp
        omega
      have hP1 : senderEmailPat.count qc = 1 := by decide
      have htwo : ((senderDomainTemplate v).drop i).count qc = 2 + rest.count qc := by
        rw [hdecomp, count_decomp _ _ _ _ hP1 hrq (by simp)]
      omega

lemma searchRecipient_none_of_endQuote (s : List Char)
    (hcount : s.count qc ≤ 2) (hlast : s.getLast? = some qc) :
    searchCapture recipientPat recipientSuf s = none :=
  searchCapture_none _ _ _
    (matchCapture_none_endQuote recipientPat recipientSuf s (by decide) (by decide)
      (by decide) hcount hlast)

lemma senderEmailTemplate_count (v : List Char) (hq : qc ∉ v) :
    (senderEmailTemplate v).count qc = 2 := by
  have h1 : senderEmailPat.count qc = 1 := by decide
  have h2 : ([qc] : List Char).count qc = 1 := by decide
  rw [senderEmailTemplate, List.count_append, List.count_append, h1, h2,
    List.count_eq_zero.mpr hq]

lemma senderDomainTemplate_count (v : List Char) (hq : qc ∉ v) :
    (senderDomainTemplate v).count qc = 2 := by
  have h1 : senderDomainPat.count qc = 1 := by decide
  have h2 : ([qc] : List Char).count qc = 1 := by decide
  rw [senderDomainTemplate, List.count_append, List.count_append, h1, h2,
    List.count_eq_zero.mpr hq]

/-- C8 counterexample: for the empty literal value the capture `([^']+)`
cannot match, so parsing the synthetically constructed sender-email source
string with an empty value yields no match instead of the claimed
`("sender_email", "")`. -/
theorem c8_empty_value_counterexample :
    parseExclusionSource (senderEmailTemplate []) = none ∧
    (none : Option (String × List Char)) ≠ some ("sender_email", []) := by
  constructor
  · decide
  · simp

/-- C8 (amended): for each of the 3 recognized exclusion shapes and every
NON-EMPTY literal value without a single quote, parsing the synthetically
constructed source string returns exactly that (type, value) pair; and any
string matched by none of the 3 patterns parses to the no-match result
(`None`) rather than raising. -/
theorem c8_exclusion_round_trip (v : List Char) (hv : v ≠ []) (hq : qc ∉ v) :
    parseExclusionSource (recipientTemplate v) = some ("recipient_email", v) ∧
    parseExclusionSource (senderEmailTemplate v) = some ("sender_email", v) ∧
    parseExclusionSource (senderDomainTemplate v) = some ("sender_domain", v) ∧
    (∀ s : List Char,
      searchCapture recipientPat recipientSuf s = none →
      searchCapture senderEmailPat [] s = none →
      searchCapture senderDomainPat [] s = none →
      parseExclusionSource s = none) := by
  refine ⟨?_, ?_, ?_, ?_⟩
  · have hform : recipientTemplate v =
        recipientPat ++ (v ++ (qc :: (recipientSuf ++ []))) := by
      rw [recipientTemplate]
      simp
    have hsearch : searchCapture recipientPat recipientSuf (recipientTemplate v) =
        some v := by
      rw [hform]
      exact searchCapture_at0 (matchCapture_at0 recipientPat recipientSuf v [] hv hq)
    simp only [parseExclusionSource, hsearch]
  · have hrec : searchCapture recipientPat recipientSuf (senderEmailTemplate v) =
        none := by
      apply searchRecipient_none_of_endQuote
      · rw [senderEmailTemplate_count v hq]
      · rw [senderEmailTemplate, List.getLast?_append_of_ne_nil _ (by simp)]
        rfl
    have hform : senderEmailTemplate v =
        senderEmailPat ++ (v ++ (qc :: ([] ++ []))) := by
      rw [senderEmailTemplate]
      simp
    have hse : searchCapture senderEmailPat [] (senderEmailTemplate v) = some v := by
      rw [hform]
      exact searchCapture_at0 (matchCapture_at0 senderEmailPat [] v [] hv hq)
    simp only [parseExclusionSource, hrec, hse]
  · have hrec : searchCapture recipientPat recipientSuf (senderDomainTemplate v) =
        none := by
      apply searchRecipient_none_of_endQuote
      · rw [senderDomainTemplate_count v hq]
      · rw [senderDomainTemplate, List.getLast?_append_of_ne_nil _ (by simp)]
        rfl
    have hse : searchCapture senderEmailPat [] (senderDomainTemplate v) = none :=
      searchCapture_none _ _ _ (matchCapture_senderEmail_none_on_domain v hq)
    have hform : senderDomainTemplate v =
        senderDomainPat ++ (v ++ (qc :: ([] ++ []))) := by
      rw [senderDomainTemplate]
      simp
    have hsd : searchCapture senderDomainPat [] (senderDomainTemplate v) = some v := by
      rw [hform]
      exact searchCapture_at0 (matchCapture_at0 senderDomainPat [] v [] hv hq)
    simp only [parseExclusionSource, hrec, hse, hsd]
  · intro s h1 h2 h3
    simp only [parseExclusionSource, h1, h2, h3]

/-- C8 witness: the amended round-trip theorem applied to the concrete value
`user@x.com`. -/
theorem c8_exclusion_round_trip_witness :
    parseExclusionSource (recipientTemplate "user@x.com".toList) =
      some ("recipient_email", "user@x.com".toList) ∧
    parseExclusionSource (senderEmailTemplate "user@x.com".toList) =
      some ("sender_email", "user@x.com".toList) ∧
    parseExclusionSource (senderDomainTemplate "user@x.com".toList) =
      some ("sender_domain", "user@x.com".toList) := by
  have h := c8_exclusion_round_trip "user@x.com".toList (by decide) (by decide)
  exact ⟨h.1, h.2.1, h.2.2.1⟩

end Spec2Proof
